import Mathlib

/-!
# ChIPmunk: alignment I/O (`src/lib/bam_io.h`) and peak loading (`src/lib/peak_loader.cpp`)

A shallow embedding of the alignment record, the sequence dictionary (`BamHeader`),
the single-source reader, the multi-source reader and the peak loader, followed by
the properties established about them.

Conventions.
* `int32_t` values are `Int`; the only unsigned 16-bit quantity, the SAM flag word, is a
  `Nat` and every write to it is reduced modulo `2 ^ 16`.
* A call of `PrintMessageDieOnError (msg, M_ERROR)` ends the program; a function that can
  reach one returns `Except String _`, with the message as the error.
* `std::map` is an association list with unique keys.
-/

namespace ChIPmunk

/-- Modelled from the spec: `PrintMessageDieOnError (msg, M_ERROR)`, declared in `common.h`
(not available).  The errors it reports are fatal (section 7): the run ends there with the
message and the enclosing operation yields no result. -/
abbrev PrintMessageDieOnError {α : Type} (msg : String) : Except String α := .error msg

/-! ## Alignment records -/

/-- The SAM flag masks of `htslib/sam.h`.  The header is not part of the repository, so
the twelve masks used by `BamAlignment` are taken as a parameter. -/
structure SamFlags where
  BAM_FPAIRED : Nat
  BAM_FPROPER_PAIR : Nat
  BAM_FUNMAP : Nat
  BAM_FMUNMAP : Nat
  BAM_FREVERSE : Nat
  BAM_FMREVERSE : Nat
  BAM_FREAD1 : Nat
  BAM_FREAD2 : Nat
  BAM_FSECONDARY : Nat
  BAM_FQCFAIL : Nat
  BAM_FDUP : Nat
  BAM_FSUPPLEMENTARY : Nat

/-- The twelve masks, in the order of the fields. -/
def SamFlags.masks (c : SamFlags) : List Nat :=
  [c.BAM_FPAIRED, c.BAM_FPROPER_PAIR, c.BAM_FUNMAP, c.BAM_FMUNMAP, c.BAM_FREVERSE,
   c.BAM_FMREVERSE, c.BAM_FREAD1, c.BAM_FREAD2, c.BAM_FSECONDARY, c.BAM_FQCFAIL,
   c.BAM_FDUP, c.BAM_FSUPPLEMENTARY]

/-- A mask that is one bit of the 16-bit flag word. -/
def IsFlagBit (m : Nat) : Prop := ∃ k, k < 16 ∧ m = 2 ^ k

/-- Every mask is a single bit of a 16-bit word and no two masks coincide. -/
def SamFlags.SingleBits (c : SamFlags) : Prop :=
  (∀ m ∈ c.masks, IsFlagBit m) ∧ c.masks.Nodup

/-- The values the SAM format assigns to the masks. -/
def samFormatFlags : SamFlags :=
  { BAM_FPAIRED := 1, BAM_FPROPER_PAIR := 2, BAM_FUNMAP := 4, BAM_FMUNMAP := 8,
    BAM_FREVERSE := 16, BAM_FMREVERSE := 32, BAM_FREAD1 := 64, BAM_FREAD2 := 128,
    BAM_FSECONDARY := 256, BAM_FQCFAIL := 512, BAM_FDUP := 1024,
    BAM_FSUPPLEMENTARY := 2048 }

/-- The fields of `BamAlignment` that the reader classes and the flag accessors use:
`tid` and `flag` are `b_->core.tid` and `b_->core.flag`. -/
structure BamAlignment where
  tid : Int
  flag : Nat
  file_ : String
  built_ : Bool
  length_ : Int
  pos_ : Int
  end_pos_ : Int
deriving DecidableEq, Repr

/-- The record made by the default constructor `BamAlignment()`. -/
def BamAlignment.init : BamAlignment :=
  { tid := 0, flag := 0, file_ := "", built_ := false, length_ := -1, pos_ := 0,
    end_pos_ := -1 }

def BamAlignment.Position (aln : BamAlignment) : Int := aln.pos_

def BamAlignment.RefID (aln : BamAlignment) : Int := aln.tid

/-- The statement `flag |= mask` on the `uint16_t` flag word. -/
def flagOr (flag mask : Nat) : Nat := (flag ||| mask) % 2 ^ 16

/-- The statement `flag &= (~mask)`: both operands are promoted to 32-bit `int`, where
`~mask` is `2 ^ 32 - 1 - mask`, and the result is stored back into 16 bits. -/
def flagAndNot (flag mask : Nat) : Nat := (flag &&& (2 ^ 32 - 1 - mask)) % 2 ^ 16

/-- The test `(flag & mask) != 0`. -/
def flagTest (flag mask : Nat) : Bool := (flag &&& mask) != 0

def BamAlignment.IsDuplicate (c : SamFlags) (a : BamAlignment) : Bool :=
  flagTest a.flag c.BAM_FDUP

def BamAlignment.IsFailedQC (c : SamFlags) (a : BamAlignment) : Bool :=
  flagTest a.flag c.BAM_FQCFAIL

def BamAlignment.IsMapped (c : SamFlags) (a : BamAlignment) : Bool :=
  (a.flag &&& c.BAM_FUNMAP) == 0

def BamAlignment.IsMateMapped (c : SamFlags) (a : BamAlignment) : Bool :=
  (a.flag &&& c.BAM_FMUNMAP) == 0

def BamAlignment.IsReverseStrand (c : SamFlags) (a : BamAlignment) : Bool :=
  flagTest a.flag c.BAM_FREVERSE

def BamAlignment.IsMateReverseStrand (c : SamFlags) (a : BamAlignment) : Bool :=
  flagTest a.flag c.BAM_FMREVERSE

def BamAlignment.IsPaired (c : SamFlags) (a : BamAlignment) : Bool :=
  flagTest a.flag c.BAM_FPAIRED

def BamAlignment.IsProperPair (c : SamFlags) (a : BamAlignment) : Bool :=
  flagTest a.flag c.BAM_FPROPER_PAIR

def BamAlignment.IsFirstMate (c : SamFlags) (a : BamAlignment) : Bool :=
  flagTest a.flag c.BAM_FREAD1

def BamAlignment.IsSecondMate (c : SamFlags) (a : BamAlignment) : Bool :=
  flagTest a.flag c.BAM_FREAD2

def BamAlignment.IsSupplementary (c : SamFlags) (a : BamAlignment) : Bool :=
  flagTest a.flag c.BAM_FSUPPLEMENTARY

def BamAlignment.IsSecondary (c : SamFlags) (a : BamAlignment) : Bool :=
  flagTest a.flag c.BAM_FSECONDARY

def BamAlignment.SetIsDuplicate (c : SamFlags) (ok : Bool) (a : BamAlignment) : BamAlignment :=
  if ok then { a with flag := flagOr a.flag c.BAM_FDUP }
  else { a with flag := flagAndNot a.flag c.BAM_FDUP }

def BamAlignment.SetIsFailedQC (c : SamFlags) (ok : Bool) (a : BamAlignment) : BamAlignment :=
  if ok then { a with flag := flagOr a.flag c.BAM_FQCFAIL }
  else { a with flag := flagAndNot a.flag c.BAM_FQCFAIL }

def BamAlignment.SetIsMapped (c : SamFlags) (ok : Bool) (a : BamAlignment) : BamAlignment :=
  if ok then { a with flag := flagAndNot a.flag c.BAM_FUNMAP }
  else { a with flag := flagOr a.flag c.BAM_FUNMAP }

def BamAlignment.SetIsMateMapped (c : SamFlags) (ok : Bool) (a : BamAlignment) : BamAlignment :=
  if ok then { a with flag := flagAndNot a.flag c.BAM_FMUNMAP }
  else { a with flag := flagOr a.flag c.BAM_FMUNMAP }

def BamAlignment.SetIsReverseStrand (c : SamFlags) (ok : Bool) (a : BamAlignment) :
    BamAlignment :=
  if ok then { a with flag := flagOr a.flag c.BAM_FREVERSE }
  else { a with flag := flagAndNot a.flag c.BAM_FREVERSE }

def BamAlignment.SetIsMateReverseStrand (c : SamFlags) (ok : Bool) (a : BamAlignment) :
    BamAlignment :=
  if ok then { a with flag := flagOr a.flag c.BAM_FMREVERSE }
  else { a with flag := flagAndNot a.flag c.BAM_FMREVERSE }

def BamAlignment.SetIsPaired (c : SamFlags) (ok : Bool) (a : BamAlignment) : BamAlignment :=
  if ok then { a with flag := flagOr a.flag c.BAM_FPAIRED }
  else { a with flag := flagAndNot a.flag c.BAM_FPAIRED }

def BamAlignment.SetIsProperPair (c : SamFlags) (ok : Bool) (a : BamAlignment) : BamAlignment :=
  if ok then { a with flag := flagOr a.flag c.BAM_FPROPER_PAIR }
  else { a with flag := flagAndNot a.flag c.BAM_FPROPER_PAIR }

def BamAlignment.SetIsFirstMate (c : SamFlags) (ok : Bool) (a : BamAlignment) : BamAlignment :=
  if ok then { a with flag := flagOr a.flag c.BAM_FREAD1 }
  else { a with flag := flagAndNot a.flag c.BAM_FREAD1 }

def BamAlignment.SetIsSecondMate (c : SamFlags) (ok : Bool) (a : BamAlignment) : BamAlignment :=
  if ok then { a with flag := flagOr a.flag c.BAM_FREAD2 }
  else { a with flag := flagAndNot a.flag c.BAM_FREAD2 }

/-- The twelve flags that have a getter. -/
inductive FlagName where
  | Duplicate | FailedQC | Mapped | MateMapped | ReverseStrand | MateReverseStrand
  | Paired | ProperPair | FirstMate | SecondMate | Supplementary | Secondary
deriving DecidableEq, Repr

/-- The getter `IsX` of each flag. -/
def FlagName.getter (c : SamFlags) : FlagName → BamAlignment → Bool
  | .Duplicate => BamAlignment.IsDuplicate c
  | .FailedQC => BamAlignment.IsFailedQC c
  | .Mapped => BamAlignment.IsMapped c
  | .MateMapped => BamAlignment.IsMateMapped c
  | .ReverseStrand => BamAlignment.IsReverseStrand c
  | .MateReverseStrand => BamAlignment.IsMateReverseStrand c
  | .Paired => BamAlignment.IsPaired c
  | .ProperPair => BamAlignment.IsProperPair c
  | .FirstMate => BamAlignment.IsFirstMate c
  | .SecondMate => BamAlignment.IsSecondMate c
  | .Supplementary => BamAlignment.IsSupplementary c
  | .Secondary => BamAlignment.IsSecondary c

/-- The setter `SetIsX` of each flag that has one (ten of the twelve). -/
def FlagName.setter (c : SamFlags) :
    FlagName → Option (Bool → BamAlignment → BamAlignment)
  | .Duplicate => some (BamAlignment.SetIsDuplicate c)
  | .FailedQC => some (BamAlignment.SetIsFailedQC c)
  | .Mapped => some (BamAlignment.SetIsMapped c)
  | .MateMapped => some (BamAlignment.SetIsMateMapped c)
  | .ReverseStrand => some (BamAlignment.SetIsReverseStrand c)
  | .MateReverseStrand => some (BamAlignment.SetIsMateReverseStrand c)
  | .Paired => some (BamAlignment.SetIsPaired c)
  | .ProperPair => some (BamAlignment.SetIsProperPair c)
  | .FirstMate => some (BamAlignment.SetIsFirstMate c)
  | .SecondMate => some (BamAlignment.SetIsSecondMate c)
  | .Supplementary => none
  | .Secondary => none

/-! ## Sequence dictionary (`BamHeader`) -/

/-- `std::map::find` on the association-list model: the value bound to the key. -/
def mapFind {β : Type} (m : List (String × β)) (k : String) : Option β :=
  match m with
  | [] => none
  | (k', v) :: rest => if k' = k then some v else mapFind rest k

/-- `std::map::insert`: a key that is already bound keeps its value. -/
def mapInsert {β : Type} (m : List (String × β)) (k : String) (v : β) : List (String × β) :=
  match mapFind m k with
  | some _ => m
  | none => m ++ [(k, v)]

/-- The members of `BamHeader` that the lookups use.  `n_targets` is
`header_->n_targets`. -/
structure BamHeader where
  seq_indices_ : List (String × Int)
  seq_names_ : List String
  seq_lengths_ : List Nat
  n_targets : Int

/-- The loop of the constructor, started at index `i` on the targets still to visit
(`seq_names_.back()` is the name pushed in the same iteration). -/
def BamHeader.fill : List (String × Nat) → Int → BamHeader → BamHeader
  | [], _, h => h
  | (name, len) :: rest, i, h =>
    BamHeader.fill rest (i + 1)
      { h with seq_names_ := h.seq_names_ ++ [name]
               seq_lengths_ := h.seq_lengths_ ++ [len]
               seq_indices_ := mapInsert h.seq_indices_ name i }

/-- The constructor `BamHeader (bam_hdr_t *header)`; the argument is the list of
`(target_name[i], target_len[i])` for `0 <= i < n_targets`.  (`n_targets` is an
`int32_t`, so such a list has fewer than `2 ^ 31` entries.) -/
def BamHeader.new (targets : List (String × Nat)) : BamHeader :=
  BamHeader.fill targets 0
    { seq_indices_ := [], seq_names_ := [], seq_lengths_ := [], n_targets := targets.length }

def BamHeader.num_seqs (h : BamHeader) : Int := h.n_targets

def BamHeader.ref_id (h : BamHeader) (ref : String) : Int :=
  match mapFind h.seq_indices_ ref with
  | none => -1
  | some i => i

def BamHeader.ref_name (h : BamHeader) (ref_id : Int) : Except String String :=
  if ref_id = -1 then .ok "*"
  else if hr : 0 ≤ ref_id ∧ ref_id < (h.seq_names_.length : Int) then
    .ok (h.seq_names_.get ⟨ref_id.toNat, by omega⟩)
  else PrintMessageDieOnError "Invalid reference ID provided to ref_name() function"

def BamHeader.ref_length (h : BamHeader) (ref_id : Int) : Except String Nat :=
  if hr : 0 ≤ ref_id ∧ ref_id < (h.seq_lengths_.length : Int) then
    .ok (h.seq_lengths_.get ⟨ref_id.toNat, by omega⟩)
  else PrintMessageDieOnError "Invalid reference ID provided to ref_length() function"

/-- The ordered `(name, length)` list of a header. -/
def BamHeader.dictionary (h : BamHeader) : List (String × Nat) :=
  h.seq_names_.zip h.seq_lengths_

/-! ## Single-source reader (`BamCramReader`) -/

/-- What the htslib layer delivers for one alignment file: whether it is a CRAM file, the
target list of its header (`none` when `sam_hdr_read` fails), its index (`none` when
`sam_index_load` fails; the index maps a region to the position of the first record a
region iterator yields) and its records in file order. -/
structure HtsFile where
  is_cram : Bool
  targets : Option (List (String × Nat))
  index : Option (Int → Int → Int → Nat)
  records : List BamAlignment

/-- The file system and htslib calls made by the constructors. -/
structure HtsEnv where
  file_exists : String → Bool
  sam_open : String → Option HtsFile
  hts_set_fai_filename : String → Bool

/-- Modelled from the spec: the resolved region of section 3, a sequence id with a start
and a non-inclusive end. -/
structure RegionSpec where
  seq_id : Int
  start : Int
  stop : Int
deriving DecidableEq, Repr

/-- Modelled from the spec: the three states of a source reader (section 3); the
declaration of `iter_` is in `bam_io.h`, the code that drives it is not available. -/
inductive ReaderState where
  | NoRegion
  | RegionActive (region : RegionSpec)
  | RegionExhausted (region : RegionSpec)
deriving DecidableEq, Repr

/-- The members of `BamCramReader`.  `in_` and `idx_` are the open file and its index,
`offset_` is the current position in the file (the number of records before the next
one), `state_` stands for `iter_` together with the region it was opened for, and
`first_aln_` is `none` while no first alignment is cached. -/
structure BamCramReader where
  in_ : HtsFile
  idx_ : Int → Int → Int → Nat
  path_ : String
  header_ : BamHeader
  offset_ : Nat
  state_ : ReaderState
  chrom_ : String
  start_ : Int
  min_offset_ : Nat
  first_aln_ : Option BamAlignment

/-- The constructor `BamCramReader (path, fasta_path)`. -/
def BamCramReader.new (env : HtsEnv) (path : String) (fasta_path : String) :
    Except String BamCramReader :=
  if !env.file_exists path then PrintMessageDieOnError ("File " ++ path ++ " doest not exist")
  else
    match env.sam_open path with
    | none => PrintMessageDieOnError ("Failed to open file " ++ path)
    | some f =>
      if f.is_cram && fasta_path.isEmpty then
        PrintMessageDieOnError ("Must specify a FASTA reference file path for CRAM file " ++ path)
      else if f.is_cram && !env.file_exists (fasta_path ++ ".fai") then
        PrintMessageDieOnError ("File " ++ fasta_path ++ ".fai doest not exist")
      else if f.is_cram && !env.hts_set_fai_filename (fasta_path ++ ".fai") then
        PrintMessageDieOnError "Failed to open FASTA reference file for CRAM file"
      else
        match f.targets with
        | none => PrintMessageDieOnError ("Failed to read the header for file " ++ path)
        | some targets =>
          match f.index with
          | none => PrintMessageDieOnError ("Failed to load the index for file " ++ path)
          | some idx =>
            .ok { in_ := f, idx_ := idx, path_ := path, header_ := BamHeader.new targets,
                  offset_ := 0, state_ := .NoRegion, chrom_ := "", start_ := -1,
                  min_offset_ := 0, first_aln_ := none }

def BamCramReader.bam_header (r : BamCramReader) : BamHeader := r.header_

/-- Modelled from the spec: `BamCramReader::GetNextAlignment` (declared in `bam_io.h`,
defined in a file that is not available), after section 4.2.  With no region the next
record of the file is returned unfiltered.  With an active region the cached first
alignment is handed out first and consumed; after that records are pulled from the
iterator, and a record on another reference or starting at or after the region end, or the
end of the data, ends the region without a record being returned.  An exhausted region
yields nothing.  The result is the record, or `none` for the return value `false`. -/
def BamCramReader.GetNextAlignment (r : BamCramReader) : Option BamAlignment × BamCramReader :=
  match r.state_ with
  | .NoRegion =>
    match r.in_.records[r.offset_]? with
    | none => (none, r)
    | some a => (some a, { r with offset_ := r.offset_ + 1 })
  | .RegionActive region =>
    match r.first_aln_ with
    | some a => (some a, { r with first_aln_ := none })
    | none =>
      match r.in_.records[r.offset_]? with
      | none => (none, { r with state_ := .RegionExhausted region })
      | some a =>
        if a.RefID ≠ region.seq_id ∨ region.stop ≤ a.Position then
          (none, { r with state_ := .RegionExhausted region, offset_ := r.offset_ + 1 })
        else (some a, { r with offset_ := r.offset_ + 1 })
  | .RegionExhausted _ => (none, r)

/-- Modelled from the spec: `BamCramReader::SetRegion` (declared in `bam_io.h`, defined in
a file that is not available), after section 4.2.  An unknown name gives `false` with no
side effect.  Otherwise, when a first alignment is cached for the same sequence and the
requested start is at or after its start, the seek is skipped and scanning resumes from
the current offset; in every other case a fresh iterator is opened through the index and
the first record it yields is cached together with the offset after it. -/
def BamCramReader.SetRegion (r : BamCramReader) (chrom : String) (start stop : Int) :
    Bool × BamCramReader :=
  let id := r.header_.ref_id chrom
  if id = -1 then (false, r)
  else
    let region : RegionSpec := { seq_id := id, start := start, stop := stop }
    let reuse : Bool :=
      match r.first_aln_ with
      | some a => decide (chrom = r.chrom_) && decide (a.Position ≤ start)
      | none => false
    if reuse then
      (true, { r with state_ := .RegionActive region, chrom_ := chrom, start_ := start })
    else
      let off := r.idx_ id start stop
      match r.in_.records[off]? with
      | some a =>
        (true, { r with state_ := .RegionActive region, chrom_ := chrom, start_ := start,
                        offset_ := off + 1, min_offset_ := off + 1, first_aln_ := some a })
      | none =>
        (true, { r with state_ := .RegionActive region, chrom_ := chrom, start_ := start,
                        offset_ := off, min_offset_ := 0, first_aln_ := none })

/-- An upper bound on the number of records a reader can still return. -/
def BamCramReader.pending (r : BamCramReader) : Nat :=
  (r.in_.records.length - r.offset_) + (if r.first_aln_.isSome then 1 else 0)

/-- The records returned by at most `n` successive calls of `GetNextAlignment`, up to the
first call that returns `false`. -/
def BamCramReader.drain : Nat → BamCramReader → List BamAlignment
  | 0, _ => []
  | n + 1, r =>
    match r.GetNextAlignment with
    | (none, _) => []
    | (some a, r') => a :: BamCramReader.drain n r'

/-- All records a reader returns until its first `false`. -/
def BamCramReader.stream (r : BamCramReader) : List BamAlignment :=
  BamCramReader.drain r.pending r

/-! ## Multi-source reader (`BamCramMultiReader`) -/

/-- Modelled from the spec: `compatible` of section 4.1, two dictionaries are compatible
when their ordered `(name, length)` lists are identical element for element. -/
def BamHeader.compatible (a b : BamHeader) : Bool :=
  decide (a.dictionary = b.dictionary)

/-- Modelled from the spec: `compare_bam_headers` (declared in `bam_io.h`, defined in a
file that is not available).  Incompatible dictionaries are a fatal configuration error
that names the two files (sections 4.3 and 7). -/
def compare_bam_headers (hdr_a hdr_b : BamHeader) (file_a file_b : String) :
    Except String Unit :=
  if hdr_a.compatible hdr_b then .ok ()
  else PrintMessageDieOnError ("BAM header mismatch between files " ++ file_a ++ " and " ++ file_b)

structure BamCramMultiReader where
  bam_readers_ : List BamCramReader
  cached_alns_ : List BamAlignment
  aln_heap_ : List (Int × Int)
  merge_type_ : Int

def BamCramMultiReader.ORDER_ALNS_BY_POSITION : Int := 0

def BamCramMultiReader.ORDER_ALNS_BY_FILE : Int := 1

/-- The loop of the constructor over the paths still to open.  `paths` is the whole
argument, `readers` and `cached` are `bam_readers_` and `cached_alns_` so far, `log` lists
the paths handed to the `BamCramReader` constructor so far. -/
def BamCramMultiReader.openAll (env : HtsEnv) (paths : List String) (fasta_path : String) :
    List String → List BamCramReader → List BamAlignment → List String →
      List String × Except String (List BamCramReader × List BamAlignment)
  | [], readers, cached, log => (log, .ok (readers, cached))
  | p :: rest, readers, cached, log =>
    match BamCramReader.new env p fasta_path with
    | .error e => (log ++ [p], .error e)
    | .ok r =>
      match compare_bam_headers ((readers ++ [r]).headD r).bam_header r.bam_header
          (paths.headD p) p with
      | .error e => (log ++ [p], .error e)
      | .ok _ =>
        BamCramMultiReader.openAll env paths fasta_path rest (readers ++ [r])
          (cached ++ [BamAlignment.init]) (log ++ [p])

/-- The constructor `BamCramMultiReader (paths, fasta_path, merge_type)`.  The first
component of the result lists the paths handed to the `BamCramReader` constructor. -/
def BamCramMultiReader.new (env : HtsEnv) (paths : List String) (fasta_path : String)
    (merge_type : Int) : List String × Except String BamCramMultiReader :=
  if paths.isEmpty then
    ([], PrintMessageDieOnError "Must provide at least one file to BamCramMultiReader constructor")
  else if merge_type ≠ BamCramMultiReader.ORDER_ALNS_BY_POSITION
      ∧ merge_type ≠ BamCramMultiReader.ORDER_ALNS_BY_FILE then
    ([], PrintMessageDieOnError "Invalid merge type provided to BamCramMultiReader constructor")
  else
    match BamCramMultiReader.openAll env paths fasta_path paths [] [] [] with
    | (log, .error e) => (log, .error e)
    | (log, .ok (readers, cached)) =>
      (log, .ok { bam_readers_ := readers, cached_alns_ := cached, aln_heap_ := [],
                  merge_type_ := merge_type })

/-- The constructor called without its last argument: `merge_type` takes its default
`ORDER_ALNS_BY_POSITION`. -/
def BamCramMultiReader.newDefaultMerge (env : HtsEnv) (paths : List String)
    (fasta_path : String) : List String × Except String BamCramMultiReader :=
  BamCramMultiReader.new env paths fasta_path BamCramMultiReader.ORDER_ALNS_BY_POSITION

def BamCramMultiReader.get_merge_type (m : BamCramMultiReader) : Int := m.merge_type_

/-- The header of the first reader, or `none` for a reader list that is empty. -/
def BamCramMultiReader.bam_header (m : BamCramMultiReader) : Option BamHeader :=
  m.bam_readers_.head?.map BamCramReader.bam_header

/-- The dictionary of the source at `path`: the ordered `(name, length)` list of the
header of the reader that the `BamCramReader` constructor builds, `none` when that
constructor fails. -/
def sourceDictionary (env : HtsEnv) (path fasta_path : String) :
    Option (List (String × Nat)) :=
  (BamCramReader.new env path fasta_path).toOption.map (fun r => r.bam_header.dictionary)

/-! ## Merged stream of the multi-source reader -/

/-- Modelled from the spec: one source of the merge reader together with its lookahead
slot (section 3), `none` for an Empty slot and `some a` for `Filled a`.  The code that
uses `cached_alns_` and `aln_heap_` is not available. -/
structure SourceSlot where
  reader : BamCramReader
  lookahead : Option BamAlignment

/-- Modelled from the spec: the state of the merge reader (section 3), the ordered
sources with one lookahead slot each, and the merge discipline. -/
structure MergeReader where
  sources : List SourceSlot
  discipline : Int

/-- The merge state of a reader that has just been constructed: every slot is Empty. -/
def BamCramMultiReader.toMergeReader (m : BamCramMultiReader) : MergeReader :=
  { sources := m.bam_readers_.map (fun r => { reader := r, lookahead := none }),
    discipline := m.merge_type_ }

/-- The merge key `(reference id, start position)`, compared lexicographically. -/
def keyLt (a b : BamAlignment) : Prop :=
  a.RefID < b.RefID ∨ (a.RefID = b.RefID ∧ a.Position < b.Position)

instance (a b : BamAlignment) : Decidable (keyLt a b) := by
  unfold keyLt; exact inferInstance

def keyLe (a b : BamAlignment) : Prop :=
  a.RefID < b.RefID ∨ (a.RefID = b.RefID ∧ a.Position ≤ b.Position)

instance (a b : BamAlignment) : Decidable (keyLe a b) := by
  unfold keyLe; exact inferInstance

def keyEq (a b : BamAlignment) : Prop :=
  a.RefID = b.RefID ∧ a.Position = b.Position

instance (a b : BamAlignment) : Decidable (keyEq a b) := by
  unfold keyEq; exact inferInstance

/-- Modelled from the spec: the refill of one slot (section 4.3).  An Empty slot is
refilled by a call of the source, and stays Empty when the source has nothing left. -/
def SourceSlot.refill (e : SourceSlot) : SourceSlot :=
  match e.lookahead with
  | some _ => e
  | none =>
    match e.reader.GetNextAlignment with
    | (res, r') => { reader := r', lookahead := res }

/-- Modelled from the spec: the selection among the Filled slots (section 4.3), the
smallest key wins and equal keys go to the lower source index.  `i` is the index of the
first slot of the list. -/
def selectMin : List SourceSlot → Nat → Option (Nat × BamAlignment)
  | [], _ => none
  | e :: rest, i =>
    match e.lookahead, selectMin rest (i + 1) with
    | none, res => res
    | some a, none => some (i, a)
    | some a, some (j, b) => if keyLt b a then some (j, b) else some (i, a)

/-- Marks the slot at index `i` Empty. -/
def clearSlot : List SourceSlot → Nat → List SourceSlot
  | [], _ => []
  | e :: rest, 0 => { e with lookahead := none } :: rest
  | e :: rest, i + 1 => e :: clearSlot rest i

/-- Modelled from the spec: the FILE_ORDER pull (section 4.3), the sources are asked in
construction order and the first record any of them returns is the result.  `i` is the
index of the first source of the list. -/
def pullInFileOrder : List SourceSlot → Nat → Option (Nat × BamAlignment) × List SourceSlot
  | [], _ => (none, [])
  | e :: rest, i =>
    match e.reader.GetNextAlignment with
    | (some a, r') => (some (i, a), { e with reader := r' } :: rest)
    | (none, r') =>
      match pullInFileOrder rest (i + 1) with
      | (res, rest') => (res, { e with reader := r' } :: rest')

/-- Modelled from the spec: `BamCramMultiReader::GetNextAlignment` (declared in
`bam_io.h`, defined in a file that is not available), after section 4.3.  The result is
the index of the source together with the record, or `none` at the end of the stream. -/
def MergeReader.GetNextAlignment (m : MergeReader) : Option (Nat × BamAlignment) × MergeReader :=
  if m.discipline = BamCramMultiReader.ORDER_ALNS_BY_POSITION then
    let filled := m.sources.map SourceSlot.refill
    match selectMin filled 0 with
    | none => (none, { m with sources := filled })
    | some (i, a) => (some (i, a), { m with sources := clearSlot filled i })
  else
    match pullInFileOrder m.sources 0 with
    | (res, sources') => (res, { m with sources := sources' })

/-- The results of at most `n` successive calls of `GetNextAlignment`, up to the first
call that reports the end of the stream. -/
def MergeReader.drain : Nat → MergeReader → List (Nat × BamAlignment)
  | 0, _ => []
  | n + 1, m =>
    match m.GetNextAlignment with
    | (none, _) => []
    | (some x, m') => x :: MergeReader.drain n m'

/-- Modelled from the spec: `BamCramMultiReader::SetRegion` (declared in `bam_io.h`,
defined in a file that is not available), after section 4.3.  The call is delegated to
every source; the result is `true` only when every source accepts the region, and the
sources keep whatever state their own call left. -/
def MergeReader.SetRegion (m : MergeReader) (chrom : String) (start stop : Int) :
    Bool × MergeReader :=
  let results := m.sources.map (fun e => (e, e.reader.SetRegion chrom start stop))
  (results.all (fun x => x.2.1),
   { m with sources := results.map (fun x => { x.1 with reader := x.2.2 }) })

/-- A source whose buffered record (if any) followed by the records it will still return
is in non-decreasing key order. -/
def SourceSlot.Sorted (e : SourceSlot) : Prop :=
  (e.lookahead.toList ++ e.reader.stream).Pairwise keyLe

/-- The records the merge reader still holds: for every source its buffered record (if
any) followed by the records the source will still return. -/
def MergeReader.contents (m : MergeReader) : List BamAlignment :=
  (m.sources.map (fun e => e.lookahead.toList ++ e.reader.stream)).flatten

/-- The order on merge results that the POSITION discipline promises between one result
and the next: the key does not decrease, and with equal keys the source index does not
decrease. -/
def mergeOrder (x y : Nat × BamAlignment) : Prop :=
  keyLe x.2 y.2 ∧ (keyEq x.2 y.2 → x.1 ≤ y.1)

instance (x y : Nat × BamAlignment) : Decidable (mergeOrder x y) := by
  unfold mergeOrder; exact inferInstance

/-- The sources drained one after the other: all records of the first source of the list
(index `i`) in the order it returns them, then all records of the next one, and so on,
each record paired with the index of its source. -/
def fileOrderFrom (i : Nat) (sources : List SourceSlot) : List (Nat × BamAlignment) :=
  ((sources.enumFrom i).map (fun p => p.2.reader.stream.map (fun a => (p.1, a)))).flatten

/-- The two operations a caller can apply to a merge reader after its construction. -/
inductive MergeOp where
  | SetRegion (chrom : String) (start stop : Int)
  | GetNextAlignment
deriving DecidableEq, Repr

/-- The merge state after a sequence of calls, applied from left to right. -/
def MergeReader.run : List MergeOp → MergeReader → MergeReader
  | [], m => m
  | .SetRegion chrom start stop :: ops, m =>
    MergeReader.run ops (m.SetRegion chrom start stop).2
  | .GetNextAlignment :: ops, m => MergeReader.run ops m.GetNextAlignment.2

/-! ## Peak loader (`PeakLoader`) -/

structure PeakLoader where
  peakfile : String
  peakfileType : String
  bamfile : String
  count_colidx : Int
deriving DecidableEq, Repr

def PeakLoader.peakfileTypeList : List (String × Int) :=
  [("homer", 0), ("wce", 1), ("bed", 2)]

/-- The calls `Load` makes on its `PeakReader`; the reader class is outside the
repository files at hand, so a call is recorded with the arguments that select its
behaviour.  The calls that take `peaks` are the ones that fill or update that vector. -/
inductive PeakReaderCall where
  | HomerPeakReader (count_colidx : Int) (region : String) (noscale scale_outliers : Bool)
  | EmptyPeakReader
  | BedPeakReader (count_colidx : Int) (region : String) (noscale scale_outliers : Bool)
  | UpdateTagCount (bamfile : String) (region : String) (noscale scale_outliers : Bool)
deriving DecidableEq, Repr

/-- How a run of `Load` ends: with a return value, or with the exception
`std::out_of_range` thrown by `std::map::at` for a key that is not in the map. -/
inductive LoadResult where
  | returned (value : Bool)
  | out_of_range
deriving DecidableEq, Repr

/-- What a run of `Load` does: the reader calls made, the lines written to `std::cerr`,
and how the run ends. -/
structure LoadOutcome where
  calls : List PeakReaderCall
  cerr : List String
  result : LoadResult
deriving DecidableEq, Repr

/-- The part of `Load` after the `switch`. -/
def PeakLoader.finishLoad (pl : PeakLoader) (region : String) (noscale scale_outliers : Bool)
    (calls : List PeakReaderCall) : LoadOutcome :=
  if pl.bamfile ≠ "" then
    { calls := calls ++ [.UpdateTagCount pl.bamfile region noscale scale_outliers],
      cerr := [], result := .returned true }
  else { calls := calls, cerr := [], result := .returned true }

/-- The method `PeakLoader::Load`.  The `float` argument `frag_length` is only passed on to
`UpdateTagCount` and is left out. -/
def PeakLoader.Load (pl : PeakLoader) (region : String) (noscale scale_outliers : Bool) :
    LoadOutcome :=
  match mapFind PeakLoader.peakfileTypeList pl.peakfileType with
  | none => { calls := [], cerr := [], result := .out_of_range }
  | some t =>
    if t = 0 then
      pl.finishLoad region noscale scale_outliers
        [.HomerPeakReader pl.count_colidx region noscale scale_outliers]
    else if t = 1 then
      pl.finishLoad region noscale scale_outliers [.EmptyPeakReader]
    else if t = 2 then
      pl.finishLoad region noscale scale_outliers
        [.BedPeakReader pl.count_colidx region noscale scale_outliers]
    else
      { calls := [],
        cerr := ["An unexpected error happened in PeakLoader->Load(). Invalid peak type specified. Options are bed, homer, or wce"],
        result := .returned false }

/-- The call `std::transform (s.begin (), s.end (), out.begin (), ::tolower)`: every
character of the string is replaced by its lower case, where only the letters `A` to `Z`
change. -/
def lowercase (s : String) : String := ⟨s.data.map Char.toLower⟩

/-- The constructor `PeakLoader (_peakfile, _peakfileType, _bamfile, _count_colidx)`.  The
two error branches write their message to `std::cerr` and end the program with
`std::exit (1)`; the message is the error of the result. -/
def PeakLoader.new (_peakfile _peakfileType _bamfile : String) (_count_colidx : Int) :
    Except String PeakLoader :=
  if _peakfileType = "" then
    .error "****** ERROR: Need to specify the type of the peak file ******"
  else if _bamfile = "" ∧ _count_colidx = -1 ∧ _peakfileType ≠ "wce" then
    .error "****** ERROR: Need to specify either parameter -c or parameter -b ******"
  else
    .ok { peakfile := _peakfile, peakfileType := lowercase _peakfileType,
          bamfile := _bamfile, count_colidx := _count_colidx }

/-! ## Example configurations -/

/-- A record on reference `tid` starting at `pos`, read from `file`. -/
def exampleRecord (file : String) (tid pos : Int) : BamAlignment :=
  { BamAlignment.init with tid := tid, pos_ := pos, file_ := file }

/-- An indexed BAM file with the given header targets and records; its index sends a
region to the first record on that reference that starts at or after the region start. -/
def exampleFile (targets : List (String × Nat)) (records : List BamAlignment) : HtsFile :=
  { is_cram := false, targets := some targets,
    index := some (fun id start _ =>
      (records.takeWhile (fun a => decide (a.tid < id ∨ (a.tid = id ∧ a.pos_ < start)))).length),
    records := records }

/-- Two files over the dictionary `[("chr1", 100)]`: `A.bam` holds records at positions 5
and 10 of reference 0, `B.bam` at positions 5 and 20; `C.bam` has the dictionary
`[("chr1", 200)]`. -/
def exampleEnv : HtsEnv :=
  { file_exists := fun p => p = "A.bam" || p = "B.bam" || p = "C.bam",
    sam_open := fun p =>
      if p = "A.bam" then
        some (exampleFile [("chr1", 100)] [exampleRecord "A.bam" 0 5, exampleRecord "A.bam" 0 10])
      else if p = "B.bam" then
        some (exampleFile [("chr1", 100)] [exampleRecord "B.bam" 0 5, exampleRecord "B.bam" 0 20])
      else if p = "C.bam" then
        some (exampleFile [("chr1", 200)] [exampleRecord "C.bam" 0 7])
      else none,
    hts_set_fai_filename := fun _ => false }

/-- The reader that the `BamCramReader` constructor builds for a file of `exampleEnv`. -/
def exampleReader (path : String) (targets : List (String × Nat))
    (records : List BamAlignment) : BamCramReader :=
  { in_ := exampleFile targets records,
    idx_ := fun id start _ =>
      (records.takeWhile (fun a => decide (a.tid < id ∨ (a.tid = id ∧ a.pos_ < start)))).length,
    path_ := path, header_ := BamHeader.new targets, offset_ := 0, state_ := .NoRegion,
    chrom_ := "", start_ := -1, min_offset_ := 0, first_aln_ := none }

/-- The merge state right after the construction over `A.bam` and `B.bam`. -/
def exampleMergeReader (merge_type : Int) : MergeReader :=
  { sources :=
      [{ reader := exampleReader "A.bam" [("chr1", 100)]
           [exampleRecord "A.bam" 0 5, exampleRecord "A.bam" 0 10], lookahead := none },
       { reader := exampleReader "B.bam" [("chr1", 100)]
           [exampleRecord "B.bam" 0 5, exampleRecord "B.bam" 0 20], lookahead := none }],
    discipline := merge_type }

/-- The reader that the constructor builds over `A.bam` and `B.bam`. -/
def exampleMultiReader (merge_type : Int) : BamCramMultiReader :=
  { bam_readers_ :=
      [exampleReader "A.bam" [("chr1", 100)]
         [exampleRecord "A.bam" 0 5, exampleRecord "A.bam" 0 10],
       exampleReader "B.bam" [("chr1", 100)]
         [exampleRecord "B.bam" 0 5, exampleRecord "B.bam" 0 20]],
    cached_alns_ := [BamAlignment.init, BamAlignment.init],
    aln_heap_ := [],
    merge_type_ := merge_type }

/-- The reader over `A.bam` after the region `chr1:0-100` has been set on it: the region
is active and the first alignment of the region is cached. -/
def exampleActiveReader : BamCramReader :=
  ((exampleReader "A.bam" [("chr1", 100)]
      [exampleRecord "A.bam" 0 5, exampleRecord "A.bam" 0 10]).SetRegion "chr1" 0 100).2

/-- The merge reader over `A.bam` and `B.bam` in the middle of a pass: the region
`chr1:0-100` has been set and one record has been taken. -/
def exampleStreamingMerge : MergeReader :=
  MergeReader.run [.SetRegion "chr1" 0 100, .GetNextAlignment]
    (exampleMultiReader 0).toMergeReader

/-! ## Properties -/

/-! ### The sequence dictionary -/

theorem mapFind_append_single {β : Type} (m : List (String × β)) (k' : String) (v : β)
    (k : String) :
    mapFind (m ++ [(k', v)]) k
      = match mapFind m k with
        | some x => some x
        | none => if k' = k then some v else none := by
  induction m with
  | nil => simp [mapFind]
  | cons p rest ih =>
    obtain ⟨a, b⟩ := p
    by_cases hak : a = k
    · simp [mapFind, hak]
    · simp [mapFind, hak, ih]

theorem mapFind_mapInsert {β : Type} (m : List (String × β)) (k' : String) (v : β)
    (k : String) :
    mapFind (mapInsert m k' v) k
      = match mapFind m k with
        | some x => some x
        | none => if k' = k then some v else none := by
  unfold mapInsert
  cases hk' : mapFind m k' with
  | none => simp [mapFind_append_single]
  | some w =>
    cases hk : mapFind m k with
    | some x => simp
    | none =>
      have : k' ≠ k := by
        intro h; subst h; simp [hk] at hk'
      simp [this]

theorem fill_seq_names (targets : List (String × Nat)) (i : Int) (h : BamHeader) :
    (BamHeader.fill targets i h).seq_names_ = h.seq_names_ ++ targets.map Prod.fst := by
  induction targets generalizing i h with
  | nil => simp [BamHeader.fill]
  | cons t rest ih => obtain ⟨n, l⟩ := t; simp [BamHeader.fill, ih]

theorem fill_seq_lengths (targets : List (String × Nat)) (i : Int) (h : BamHeader) :
    (BamHeader.fill targets i h).seq_lengths_ = h.seq_lengths_ ++ targets.map Prod.snd := by
  induction targets generalizing i h with
  | nil => simp [BamHeader.fill]
  | cons t rest ih => obtain ⟨n, l⟩ := t; simp [BamHeader.fill, ih]

theorem fill_n_targets (targets : List (String × Nat)) (i : Int) (h : BamHeader) :
    (BamHeader.fill targets i h).n_targets = h.n_targets := by
  induction targets generalizing i h with
  | nil => simp [BamHeader.fill]
  | cons t rest ih => obtain ⟨n, l⟩ := t; simp [BamHeader.fill, ih]

theorem fill_mapFind (targets : List (String × Nat)) (i : Int) (h : BamHeader) (k : String) :
    mapFind (BamHeader.fill targets i h).seq_indices_ k
      = match mapFind h.seq_indices_ k with
        | some x => some x
        | none =>
          if k ∈ targets.map Prod.fst then
            some (i + ((targets.map Prod.fst).indexOf k : Nat))
          else none := by
  induction targets generalizing i h with
  | nil => cases hk : mapFind h.seq_indices_ k <;> simp [BamHeader.fill, hk]
  | cons t rest ih =>
    obtain ⟨n, l⟩ := t
    simp only [BamHeader.fill, ih, mapFind_mapInsert, List.map_cons]
    cases hk : mapFind h.seq_indices_ k with
    | some x => simp
    | none =>
      by_cases hnk : n = k
      · subst hnk; simp
      · have hkn : ¬ k = n := fun e => hnk e.symm
        simp only [hnk, if_false, List.mem_cons, hkn, false_or]
        by_cases hmem : k ∈ rest.map Prod.fst
        · simp only [hmem, if_true, List.indexOf_cons_ne _ hnk]
          congr 1
          push_cast
          ring
        · simp [hmem]

theorem new_seq_names (targets : List (String × Nat)) :
    (BamHeader.new targets).seq_names_ = targets.map Prod.fst := by
  simp [BamHeader.new, fill_seq_names]

theorem new_seq_lengths (targets : List (String × Nat)) :
    (BamHeader.new targets).seq_lengths_ = targets.map Prod.snd := by
  simp [BamHeader.new, fill_seq_lengths]

theorem new_num_seqs (targets : List (String × Nat)) :
    (BamHeader.new targets).num_seqs = targets.length := by
  simp [BamHeader.new, BamHeader.num_seqs, fill_n_targets]

theorem new_dictionary (targets : List (String × Nat)) :
    (BamHeader.new targets).dictionary = targets := by
  simp only [BamHeader.dictionary, new_seq_names, new_seq_lengths]
  induction targets with
  | nil => rfl
  | cons t rest ih => simp [ih]

/-- The value of `ref_id` on a freshly built header: the position of the first target
that carries the name, or `-1` when no target does. -/
theorem new_ref_id (targets : List (String × Nat)) (k : String) :
    (BamHeader.new targets).ref_id k
      = if k ∈ targets.map Prod.fst then (((targets.map Prod.fst).indexOf k : Nat) : Int)
        else -1 := by
  unfold BamHeader.ref_id
  rw [BamHeader.new, fill_mapFind]
  by_cases hmem : k ∈ targets.map Prod.fst
  · simp [mapFind, hmem]
  · simp [mapFind, hmem]

theorem ref_name_of_getElem? (h : BamHeader) (i : Nat) (nm : String)
    (hi : h.seq_names_[i]? = some nm) : h.ref_name (i : Int) = .ok nm := by
  obtain ⟨hlt, hget⟩ := List.getElem?_eq_some_iff.mp hi
  have h1 : ¬ ((i : Int) = -1) := by omega
  have h2 : 0 ≤ (i : Int) ∧ (i : Int) < (h.seq_names_.length : Int) := by omega
  simp only [BamHeader.ref_name, h1, if_false, h2, and_self, dite_true, List.get_eq_getElem,
    Int.toNat_ofNat, hget]

theorem ref_length_of_getElem? (h : BamHeader) (i : Nat) (len : Nat)
    (hi : h.seq_lengths_[i]? = some len) : h.ref_length (i : Int) = .ok len := by
  obtain ⟨hlt, hget⟩ := List.getElem?_eq_some_iff.mp hi
  have h2 : 0 ≤ (i : Int) ∧ (i : Int) < (h.seq_lengths_.length : Int) := by omega
  simp only [BamHeader.ref_length, h2, and_self, dite_true, List.get_eq_getElem,
    Int.toNat_ofNat, hget]

theorem indexOf_getElem?_of_mem (names : List String) (k : String) (hk : k ∈ names) :
    names[names.indexOf k]? = some k := by
  have hlt : names.indexOf k < names.length := List.indexOf_lt_length.mpr hk
  rw [List.getElem?_eq_getElem hlt]
  exact congrArg some (List.getElem_indexOf hlt)

theorem indexOf_le_of_getElem? (names : List String) (k : String) (j : Nat)
    (hj : names[j]? = some k) : names.indexOf k ≤ j := by
  induction names generalizing j with
  | nil => simp at hj
  | cons a rest ih =>
    by_cases hak : a = k
    · simp [List.indexOf_cons_eq _ hak]
    · cases j with
      | zero => simp at hj; exact absurd hj hak
      | succ j =>
        simp only [List.getElem?_cons_succ] at hj
        rw [List.indexOf_cons_ne _ hak]
        exact Nat.succ_le_succ (ih j hj)

/-- C6. On a header whose target names are pairwise distinct, `ref_id` is the exact
positional lookup: `ref_id name = i` exactly when position `i` holds `name`,
`ref_id name = -1` exactly when no position holds it, and `ref_id (ref_name i) = i`
for every `0 <= i < num_seqs`. -/
theorem C6_ref_id_positional (targets : List (String × Nat))
    (hd : (targets.map Prod.fst).Nodup) :
    (∀ (name : String) (i : Nat),
        (BamHeader.new targets).ref_id name = (i : Int)
          ↔ (targets.map Prod.fst)[i]? = some name) ∧
    (∀ name : String,
        (BamHeader.new targets).ref_id name = -1 ↔ name ∉ targets.map Prod.fst) ∧
    (∀ i : Int, 0 ≤ i → i < (BamHeader.new targets).num_seqs →
        ∃ nm, (BamHeader.new targets).ref_name i = .ok nm
          ∧ (BamHeader.new targets).ref_id nm = i) := by
  refine ⟨?_, ?_, ?_⟩
  · intro name i
    rw [new_ref_id]
    constructor
    · intro h
      by_cases hmem : name ∈ targets.map Prod.fst
      · simp only [hmem, if_true] at h
        have : (targets.map Prod.fst).indexOf name = i := by exact_mod_cast h
        rw [← this]
        exact indexOf_getElem?_of_mem _ _ hmem
      · simp only [hmem, if_false] at h
        omega
    · intro h
      obtain ⟨hlt, hget⟩ := List.getElem?_eq_some_iff.mp h
      have hmem : name ∈ targets.map Prod.fst := hget ▸ List.getElem_mem hlt
      simp only [hmem, if_true]
      have := List.indexOf_getElem hd i hlt
      rw [hget] at this
      exact_mod_cast this
  · intro name
    rw [new_ref_id]
    by_cases hmem : name ∈ targets.map Prod.fst
    · simp only [hmem, if_true, not_true_eq_false, iff_false]
      omega
    · simp [hmem]
  · intro i h0 hn
    rw [new_num_seqs] at hn
    obtain ⟨k, rfl⟩ := Int.eq_ofNat_of_zero_le h0
    have hk : k < (targets.map Prod.fst).length := by
      simp only [List.length_map]; exact_mod_cast hn
    refine ⟨(targets.map Prod.fst)[k], ?_, ?_⟩
    · apply ref_name_of_getElem?
      rw [new_seq_names]
      exact List.getElem?_eq_getElem hk
    · rw [new_ref_id]
      have hmem : (targets.map Prod.fst)[k] ∈ targets.map Prod.fst := List.getElem_mem hk
      simp only [hmem, if_true]
      exact_mod_cast List.indexOf_getElem hd k hk

theorem C6_ref_id_positional_witness :
    ([("chr1", 100), ("chr2", 50), ("chrX", 70)].map Prod.fst).Nodup ∧
    ((BamHeader.new [("chr1", 100), ("chr2", 50), ("chrX", 70)]).ref_id "chrX" = (2 : Nat)
      ↔ ([("chr1", 100), ("chr2", 50), ("chrX", 70)].map Prod.fst)[2]? = some "chrX") ∧
    ((BamHeader.new [("chr1", 100), ("chr2", 50), ("chrX", 70)]).ref_id "chrx" = -1
      ↔ "chrx" ∉ [("chr1", 100), ("chr2", 50), ("chrX", 70)].map Prod.fst) :=
  ⟨by decide,
   (C6_ref_id_positional [("chr1", 100), ("chr2", 50), ("chrX", 70)] (by decide)).1 "chrX" 2,
   (C6_ref_id_positional [("chr1", 100), ("chr2", 50), ("chrX", 70)] (by decide)).2.1 "chrx"⟩

/-- C7. When a name is repeated in the target list, the first appearance wins:
`ref_id name` is the smallest position holding `name`, so `ref_name (ref_id name) = name`
for a present name, while `ref_id (ref_name j) = j` fails at every later position `j`
that holds the same name. -/
theorem C7_first_appearance_wins (targets : List (String × Nat)) (name : String)
    (hmem : name ∈ targets.map Prod.fst) :
    ∃ i : Nat,
      (BamHeader.new targets).ref_id name = (i : Int) ∧
      (targets.map Prod.fst)[i]? = some name ∧
      (∀ j : Nat, (targets.map Prod.fst)[j]? = some name → i ≤ j) ∧
      (BamHeader.new targets).ref_name ((BamHeader.new targets).ref_id name) = .ok name ∧
      (∀ j : Nat, i < j → (targets.map Prod.fst)[j]? = some name →
        (BamHeader.new targets).ref_name (j : Int) = .ok name ∧
        (BamHeader.new targets).ref_id name ≠ (j : Int)) := by
  have hid : (BamHeader.new targets).ref_id name
      = (((targets.map Prod.fst).indexOf name : Nat) : Int) := by
    rw [new_ref_id]; simp only [hmem, if_true]
  have hget := indexOf_getElem?_of_mem _ _ hmem
  refine ⟨(targets.map Prod.fst).indexOf name, hid, hget, ?_, ?_, ?_⟩
  · intro j hj
    exact indexOf_le_of_getElem? _ _ _ hj
  · rw [hid]
    apply ref_name_of_getElem?
    rw [new_seq_names]; exact hget
  · intro j hlt hj
    refine ⟨?_, ?_⟩
    · apply ref_name_of_getElem?
      rw [new_seq_names]; exact hj
    · rw [hid]; omega

theorem C7_first_appearance_wins_witness :
    "chr1" ∈ [("chr1", 100), ("chr2", 50), ("chr1", 70)].map Prod.fst ∧
    ∃ i : Nat,
      (BamHeader.new [("chr1", 100), ("chr2", 50), ("chr1", 70)]).ref_id "chr1" = (i : Int) ∧
      ([("chr1", 100), ("chr2", 50), ("chr1", 70)].map Prod.fst)[i]? = some "chr1" ∧
      (∀ j : Nat, ([("chr1", 100), ("chr2", 50), ("chr1", 70)].map Prod.fst)[j]? = some "chr1"
        → i ≤ j) ∧
      (BamHeader.new [("chr1", 100), ("chr2", 50), ("chr1", 70)]).ref_name
        ((BamHeader.new [("chr1", 100), ("chr2", 50), ("chr1", 70)]).ref_id "chr1")
          = .ok "chr1" ∧
      (∀ j : Nat, i < j →
        ([("chr1", 100), ("chr2", 50), ("chr1", 70)].map Prod.fst)[j]? = some "chr1" →
        (BamHeader.new [("chr1", 100), ("chr2", 50), ("chr1", 70)]).ref_name (j : Int)
          = .ok "chr1" ∧
        (BamHeader.new [("chr1", 100), ("chr2", 50), ("chr1", 70)]).ref_id "chr1"
          ≠ (j : Int)) :=
  ⟨by decide,
   C7_first_appearance_wins [("chr1", 100), ("chr2", 50), ("chr1", 70)] "chr1" (by decide)⟩

/-- C8. The id-to-field lookups fail exactly outside their valid range: on a header with
`n` sequences `ref_name (-1)` is `"*"`, `ref_name i` and `ref_length i` return the
`i`-th name and length for `0 <= i < n`, `ref_name` raises the fatal error for every
other id (`i < -1` or `i >= n`) and `ref_length` for every other id (`i < 0` or
`i >= n`, so also for `-1`); hence `ref_name (ref_id name)` never ends in the error. -/
theorem C8_lookup_range (targets : List (String × Nat)) :
    (BamHeader.new targets).ref_name (-1) = .ok "*" ∧
    (∀ (i : Nat) (nm : String) (len : Nat), targets[i]? = some (nm, len) →
        (BamHeader.new targets).ref_name (i : Int) = .ok nm ∧
        (BamHeader.new targets).ref_length (i : Int) = .ok len) ∧
    (∀ i : Int, i < -1 ∨ (BamHeader.new targets).num_seqs ≤ i →
        (BamHeader.new targets).ref_name i
          = .error "Invalid reference ID provided to ref_name() function") ∧
    (∀ i : Int, i < 0 ∨ (BamHeader.new targets).num_seqs ≤ i →
        (BamHeader.new targets).ref_length i
          = .error "Invalid reference ID provided to ref_length() function") ∧
    (∀ name : String, ∃ s,
        (BamHeader.new targets).ref_name ((BamHeader.new targets).ref_id name) = .ok s) := by
  refine ⟨by simp [BamHeader.ref_name], ?_, ?_, ?_, ?_⟩
  · intro i nm len hi
    refine ⟨?_, ?_⟩
    · apply ref_name_of_getElem?
      rw [new_seq_names, List.getElem?_map, hi]; rfl
    · apply ref_length_of_getElem?
      rw [new_seq_lengths, List.getElem?_map, hi]; rfl
  · intro i hi
    rw [new_num_seqs] at hi
    have h1 : ¬ (i = -1) := by omega
    have h2 : ¬ (0 ≤ i ∧ i < ((BamHeader.new targets).seq_names_.length : Int)) := by
      rw [new_seq_names, List.length_map]; omega
    simp only [BamHeader.ref_name, h1, if_false, h2, dite_false]
  · intro i hi
    rw [new_num_seqs] at hi
    have h2 : ¬ (0 ≤ i ∧ i < ((BamHeader.new targets).seq_lengths_.length : Int)) := by
      rw [new_seq_lengths, List.length_map]; omega
    simp only [BamHeader.ref_length, h2, dite_false]
  · intro name
    rw [new_ref_id]
    by_cases hmem : name ∈ targets.map Prod.fst
    · simp only [hmem, if_true]
      refine ⟨name, ?_⟩
      apply ref_name_of_getElem?
      rw [new_seq_names]
      exact indexOf_getElem?_of_mem _ _ hmem
    · simp only [hmem, if_false]
      exact ⟨"*", by simp [BamHeader.ref_name]⟩

theorem C8_lookup_range_witness :
    [("chr1", 100), ("chr2", 50)][1]? = some ("chr2", 50) ∧
    ((BamHeader.new [("chr1", 100), ("chr2", 50)]).ref_name ((1 : Nat) : Int) = .ok "chr2" ∧
     (BamHeader.new [("chr1", 100), ("chr2", 50)]).ref_length ((1 : Nat) : Int) = .ok 50) ∧
    ((-1 : Int) < 0 ∨ (BamHeader.new [("chr1", 100), ("chr2", 50)]).num_seqs ≤ -1) ∧
    (BamHeader.new [("chr1", 100), ("chr2", 50)]).ref_length (-1)
      = .error "Invalid reference ID provided to ref_length() function" ∧
    ((2 : Int) < -1 ∨ (BamHeader.new [("chr1", 100), ("chr2", 50)]).num_seqs ≤ 2) ∧
    (BamHeader.new [("chr1", 100), ("chr2", 50)]).ref_name 2
      = .error "Invalid reference ID provided to ref_name() function" :=
  ⟨by decide,
   (C8_lookup_range [("chr1", 100), ("chr2", 50)]).2.1 1 "chr2" 50 (by decide),
   Or.inl (by decide),
   (C8_lookup_range [("chr1", 100), ("chr2", 50)]).2.2.2.1 (-1) (Or.inl (by decide)),
   Or.inr (by decide),
   (C8_lookup_range [("chr1", 100), ("chr2", 50)]).2.2.1 2 (Or.inr (by decide))⟩

/-! ### Flag accessors -/

theorem and_two_pow_eq_zero_iff (f k : Nat) : f &&& 2 ^ k = 0 ↔ f.testBit k = false := by
  constructor
  · intro h
    have := congrArg (fun x => x.testBit k) h
    simpa [Nat.testBit_and, Nat.testBit_two_pow_self] using this
  · intro h
    apply Nat.eq_of_testBit_eq
    intro i
    by_cases hik : k = i
    · subst hik; simp [Nat.testBit_and, h]
    · simp [Nat.testBit_and, Nat.testBit_two_pow_of_ne hik]

theorem flagTest_two_pow (f k : Nat) : flagTest f (2 ^ k) = f.testBit k := by
  unfold flagTest
  cases hb : f.testBit k with
  | false => simp [(and_two_pow_eq_zero_iff f k).mpr hb]
  | true =>
    have : f &&& 2 ^ k ≠ 0 := fun h => by
      rw [(and_two_pow_eq_zero_iff f k).mp h] at hb; cases hb
    simp [this]

theorem testBit_flagOr (f a b : Nat) :
    (flagOr f (2 ^ a)).testBit b = (decide (b < 16) && (f.testBit b || decide (a = b))) := by
  unfold flagOr
  rw [Nat.testBit_mod_two_pow, Nat.testBit_or, Nat.testBit_two_pow]

theorem testBit_flagAndNot (f a b : Nat) (ha : a < 16) :
    (flagAndNot f (2 ^ a)).testBit b
      = (decide (b < 16) && (f.testBit b && !decide (a = b))) := by
  have hlt : 2 ^ a < 2 ^ 32 := Nat.pow_lt_pow_right (by decide) (by omega)
  have hrw : 2 ^ 32 - 1 - 2 ^ a = 2 ^ 32 - (2 ^ a + 1) := by omega
  unfold flagAndNot
  rw [hrw, Nat.testBit_mod_two_pow, Nat.testBit_and, Nat.testBit_two_pow_sub_succ hlt,
    Nat.testBit_two_pow]
  by_cases hb : b < 16
  · have hb32 : b < 32 := by omega
    simp [hb, hb32]
  · simp [hb]

theorem flagTest_flagOr (f m m' : Nat) (hm : IsFlagBit m) (hm' : IsFlagBit m') :
    flagTest (flagOr f m) m' = (flagTest f m' || decide (m = m')) := by
  obtain ⟨a, ha, rfl⟩ := hm
  obtain ⟨b, hb, rfl⟩ := hm'
  rw [flagTest_two_pow, flagTest_two_pow, testBit_flagOr]
  have : (2 ^ a = 2 ^ b) ↔ a = b := Nat.pow_right_injective (le_refl 2) |>.eq_iff
  simp [hb, this]

theorem flagTest_flagAndNot (f m m' : Nat) (hm : IsFlagBit m) (hm' : IsFlagBit m') :
    flagTest (flagAndNot f m) m' = (flagTest f m' && !decide (m = m')) := by
  obtain ⟨a, ha, rfl⟩ := hm
  obtain ⟨b, hb, rfl⟩ := hm'
  rw [flagTest_two_pow, flagTest_two_pow, testBit_flagAndNot _ _ _ ha]
  have : (2 ^ a = 2 ^ b) ↔ a = b := Nat.pow_right_injective (le_refl 2) |>.eq_iff
  simp [hb, this]

theorem and_beq_zero (f m : Nat) : ((f &&& m) == 0) = !flagTest f m := by
  unfold flagTest
  simp [bne]

theorem flagOr_idem (f m : Nat) (hm : IsFlagBit m) : flagOr (flagOr f m) m = flagOr f m := by
  obtain ⟨a, ha, rfl⟩ := hm
  apply Nat.eq_of_testBit_eq
  intro i
  rw [testBit_flagOr, testBit_flagOr]
  cases f.testBit i <;> cases decide (i < 16) <;> cases decide (a = i) <;> rfl

theorem flagAndNot_idem (f m : Nat) (hm : IsFlagBit m) :
    flagAndNot (flagAndNot f m) m = flagAndNot f m := by
  obtain ⟨a, ha, rfl⟩ := hm
  apply Nat.eq_of_testBit_eq
  intro i
  rw [testBit_flagAndNot _ _ _ ha, testBit_flagAndNot _ _ _ ha]
  cases f.testBit i <;> cases decide (i < 16) <;> cases decide (a = i) <;> rfl

/-- C9. Each of the ten flag setters round-trips with its getter and touches one bit
only: after `SetIsX v` the getter `IsX` returns `v` (also for `Mapped` and `MateMapped`,
whose bit is cleared by `true`), every other one of the twelve getters returns what it
returned before, and applying the setter twice equals applying it once. -/
theorem C9_flag_roundtrip (c : SamFlags) (hc : c.SingleBits) (s : FlagName)
    (set : Bool → BamAlignment → BamAlignment) (hs : s.setter c = some set)
    (v : Bool) (a : BamAlignment) :
    s.getter c (set v a) = v ∧
    (∀ g : FlagName, g ≠ s → g.getter c (set v a) = g.getter c a) ∧
    set v (set v a) = set v a := by
  obtain ⟨hbits, hnd⟩ := hc
  simp only [SamFlags.masks, List.mem_cons, List.mem_singleton, forall_eq_or_imp, forall_eq,
    List.not_mem_nil, false_implies, implies_true, and_true] at hbits
  simp only [SamFlags.masks, List.nodup_cons, List.mem_cons, List.mem_singleton, not_or,
    List.not_mem_nil, not_false_eq_true, List.nodup_nil, and_true] at hnd
  obtain ⟨b1, b2, b3, b4, b5, b6, b7, b8, b9, b10, b11, b12⟩ := hbits
  refine ⟨?_, ?_, ?_⟩
  · cases s <;> simp only [FlagName.setter, Option.some.injEq, reduceCtorEq] at hs <;>
      subst hs <;> cases v <;>
      simp [FlagName.getter, BamAlignment.IsDuplicate, BamAlignment.IsFailedQC,
        BamAlignment.IsMapped, BamAlignment.IsMateMapped, BamAlignment.IsReverseStrand,
        BamAlignment.IsMateReverseStrand, BamAlignment.IsPaired, BamAlignment.IsProperPair,
        BamAlignment.IsFirstMate, BamAlignment.IsSecondMate,
        BamAlignment.SetIsDuplicate, BamAlignment.SetIsFailedQC, BamAlignment.SetIsMapped,
        BamAlignment.SetIsMateMapped, BamAlignment.SetIsReverseStrand,
        BamAlignment.SetIsMateReverseStrand, BamAlignment.SetIsPaired,
        BamAlignment.SetIsProperPair, BamAlignment.SetIsFirstMate,
        BamAlignment.SetIsSecondMate, and_beq_zero, flagTest_flagOr, flagTest_flagAndNot, *]
  · intro g hg
    cases s <;> simp only [FlagName.setter, Option.some.injEq, reduceCtorEq] at hs <;>
      subst hs <;> cases g <;> (try exact absurd rfl hg) <;> cases v <;>
      simp [FlagName.getter, BamAlignment.IsDuplicate, BamAlignment.IsFailedQC,
        BamAlignment.IsMapped, BamAlignment.IsMateMapped, BamAlignment.IsReverseStrand,
        BamAlignment.IsMateReverseStrand, BamAlignment.IsPaired, BamAlignment.IsProperPair,
        BamAlignment.IsFirstMate, BamAlignment.IsSecondMate, BamAlignment.IsSupplementary,
        BamAlignment.IsSecondary,
        BamAlignment.SetIsDuplicate, BamAlignment.SetIsFailedQC, BamAlignment.SetIsMapped,
        BamAlignment.SetIsMateMapped, BamAlignment.SetIsReverseStrand,
        BamAlignment.SetIsMateReverseStrand, BamAlignment.SetIsPaired,
        BamAlignment.SetIsProperPair, BamAlignment.SetIsFirstMate,
        BamAlignment.SetIsSecondMate, and_beq_zero, flagTest_flagOr, flagTest_flagAndNot,
        eq_comm, *]
  · cases s <;> simp only [FlagName.setter, Option.some.injEq, reduceCtorEq] at hs <;>
      subst hs <;> cases v <;>
      simp [BamAlignment.SetIsDuplicate, BamAlignment.SetIsFailedQC, BamAlignment.SetIsMapped,
        BamAlignment.SetIsMateMapped, BamAlignment.SetIsReverseStrand,
        BamAlignment.SetIsMateReverseStrand, BamAlignment.SetIsPaired,
        BamAlignment.SetIsProperPair, BamAlignment.SetIsFirstMate,
        BamAlignment.SetIsSecondMate, flagOr_idem, flagAndNot_idem, *]

theorem samFormatFlags_singleBits : samFormatFlags.SingleBits := by
  refine ⟨?_, by decide⟩
  intro m hm
  simp only [SamFlags.masks, samFormatFlags, List.mem_cons, List.mem_singleton,
    List.not_mem_nil, or_false] at hm
  rcases hm with h | h | h | h | h | h | h | h | h | h | h | h <;> subst h
  · exact ⟨0, by decide, rfl⟩
  · exact ⟨1, by decide, rfl⟩
  · exact ⟨2, by decide, rfl⟩
  · exact ⟨3, by decide, rfl⟩
  · exact ⟨4, by decide, rfl⟩
  · exact ⟨5, by decide, rfl⟩
  · exact ⟨6, by decide, rfl⟩
  · exact ⟨7, by decide, rfl⟩
  · exact ⟨8, by decide, rfl⟩
  · exact ⟨9, by decide, rfl⟩
  · exact ⟨10, by decide, rfl⟩
  · exact ⟨11, by decide, rfl⟩

theorem C9_flag_roundtrip_witness :
    samFormatFlags.SingleBits ∧
    FlagName.Mapped.setter samFormatFlags = some (BamAlignment.SetIsMapped samFormatFlags) ∧
    (FlagName.Mapped.getter samFormatFlags
        (BamAlignment.SetIsMapped samFormatFlags true { BamAlignment.init with flag := 1029 })
        = true ∧
     (∀ g : FlagName, g ≠ FlagName.Mapped →
        g.getter samFormatFlags
          (BamAlignment.SetIsMapped samFormatFlags true { BamAlignment.init with flag := 1029 })
        = g.getter samFormatFlags { BamAlignment.init with flag := 1029 }) ∧
     BamAlignment.SetIsMapped samFormatFlags true
        (BamAlignment.SetIsMapped samFormatFlags true { BamAlignment.init with flag := 1029 })
        = BamAlignment.SetIsMapped samFormatFlags true
            { BamAlignment.init with flag := 1029 }) :=
  ⟨samFormatFlags_singleBits, rfl,
   C9_flag_roundtrip samFormatFlags samFormatFlags_singleBits FlagName.Mapped
     (BamAlignment.SetIsMapped samFormatFlags) rfl true
     { BamAlignment.init with flag := 1029 }⟩

/-! ### Construction of the multi-source reader -/

theorem compare_bam_headers_ok (a b : BamHeader) (fa fb : String) (u : Unit)
    (h : compare_bam_headers a b fa fb = .ok u) : a.dictionary = b.dictionary := by
  unfold compare_bam_headers BamHeader.compatible at h
  by_cases hd : a.dictionary = b.dictionary
  · exact hd
  · simp [hd] at h

theorem openAll_ok (env : HtsEnv) (paths : List String) (fasta : String)
    (todo : List String) (readers : List BamCramReader) (cached : List BamAlignment)
    (log log' : List String) (readers' : List BamCramReader) (cached' : List BamAlignment)
    (h : BamCramMultiReader.openAll env paths fasta todo readers cached log
      = (log', .ok (readers', cached'))) :
    log' = log ++ todo ∧
    ∃ opened, readers' = readers ++ opened ∧
      List.Forall₂ (fun p r => BamCramReader.new env p fasta = .ok r) todo opened ∧
      ∀ r0, (readers ++ opened).head? = some r0 →
        ∀ r ∈ opened, r0.bam_header.dictionary = r.bam_header.dictionary := by
  induction todo generalizing readers cached log with
  | nil =>
    simp only [BamCramMultiReader.openAll, Prod.mk.injEq, Except.ok.injEq] at h
    obtain ⟨h1, h2, _⟩ := h
    exact ⟨by simp [h1], [], by simp [h2], List.Forall₂.nil, by simp⟩
  | cons p rest ih =>
    unfold BamCramMultiReader.openAll at h
    cases hr : BamCramReader.new env p fasta with
    | error e => simp [hr] at h
    | ok r =>
      rw [hr] at h
      dsimp only at h
      cases hc : compare_bam_headers ((readers ++ [r]).headD r).bam_header r.bam_header
          (paths.headD p) p with
      | error e => rw [hc] at h; simp at h
      | ok u =>
        rw [hc] at h
        dsimp only at h
        obtain ⟨hlog, opened, hrd, hall, hcomp⟩ := ih _ _ _ h
        refine ⟨by simp [hlog], r :: opened, by simp [hrd], List.Forall₂.cons hr hall, ?_⟩
        intro r0 hr0 x hx
        have hr0' : (readers ++ [r] ++ opened).head? = some r0 := by simpa using hr0
        rcases List.mem_cons.mp hx with rfl | hx
        · have hd := compare_bam_headers_ok _ _ _ _ _ hc
          have : (readers ++ [x]).headD x = r0 := by
            cases readers with
            | nil => simpa using hr0
            | cons y ys => simpa using hr0
          rw [this] at hd
          exact hd
        · exact hcomp r0 hr0' x hx

theorem new_ok (env : HtsEnv) (paths : List String) (fasta : String) (merge_type : Int)
    (log : List String) (m : BamCramMultiReader)
    (h : BamCramMultiReader.new env paths fasta merge_type = (log, .ok m)) :
    paths ≠ [] ∧
    (merge_type = BamCramMultiReader.ORDER_ALNS_BY_POSITION
      ∨ merge_type = BamCramMultiReader.ORDER_ALNS_BY_FILE) ∧
    m.merge_type_ = merge_type ∧ log = paths ∧
    List.Forall₂ (fun p r => BamCramReader.new env p fasta = .ok r) paths m.bam_readers_ ∧
    ∀ r0, m.bam_readers_.head? = some r0 →
      ∀ r ∈ m.bam_readers_, r0.bam_header.dictionary = r.bam_header.dictionary := by
  unfold BamCramMultiReader.new at h
  by_cases hp : paths.isEmpty = true
  · simp [hp] at h
  · simp only [hp, Bool.false_eq_true, if_false] at h
    by_cases hm : merge_type ≠ BamCramMultiReader.ORDER_ALNS_BY_POSITION
        ∧ merge_type ≠ BamCramMultiReader.ORDER_ALNS_BY_FILE
    · simp [hm] at h
    · simp only [hm, if_false] at h
      cases ho : BamCramMultiReader.openAll env paths fasta paths [] [] [] with
      | mk lg res =>
        cases res with
        | error e => simp [ho] at h
        | ok pr =>
          obtain ⟨readers, cached⟩ := pr
          simp only [ho, Prod.mk.injEq, Except.ok.injEq] at h
          obtain ⟨hlog, hm'⟩ := h
          obtain ⟨hl, opened, hrd, hall, hcomp⟩ := openAll_ok _ _ _ _ _ _ _ _ _ _ ho
          simp only [List.nil_append] at hl hrd hcomp
          subst hrd hm'
          refine ⟨?_, ?_, rfl, ?_, hall, hcomp⟩
          · intro hnil; simp [hnil] at hp
          · by_contra hcon
            exact hm ⟨fun e => hcon (Or.inl e), fun e => hcon (Or.inr e)⟩
          · rw [← hlog, hl]

theorem new_not_ok_is_error (env : HtsEnv) (paths : List String) (fasta : String)
    (merge_type : Int)
    (h : ∀ log m, BamCramMultiReader.new env paths fasta merge_type ≠ (log, .ok m)) :
    ∃ log e, BamCramMultiReader.new env paths fasta merge_type = (log, .error e) := by
  cases hn : BamCramMultiReader.new env paths fasta merge_type with
  | mk lg res =>
    cases res with
    | error e => exact ⟨lg, e, rfl⟩
    | ok m => exact absurd hn (h lg m)

theorem forall₂_mem_left {α β : Type} {R : α → β → Prop} {l₁ : List α} {l₂ : List β}
    (h : List.Forall₂ R l₁ l₂) {a : α} (ha : a ∈ l₁) : ∃ b, b ∈ l₂ ∧ R a b := by
  induction h with
  | nil => cases ha
  | cons hab _ ih =>
    rcases List.mem_cons.mp ha with rfl | ha
    · exact ⟨_, List.mem_cons_self _ _, hab⟩
    · obtain ⟨b, hb, hr⟩ := ih ha
      exact ⟨b, List.mem_cons_of_mem _ hb, hr⟩

/-- C3. Construction is gated on dictionary compatibility.  When the constructor
completes, the readers are the ones opened for the paths, in order, and the ordered
`(name, length)` list of every one of them is identical to that of the first; so when two
paths of the list open to sources with different dictionaries, construction fails. -/
theorem C3_construction_requires_compatible_dictionaries (env : HtsEnv) (paths : List String)
    (fasta : String) (merge_type : Int) :
    (∀ log m, BamCramMultiReader.new env paths fasta merge_type = (log, .ok m) →
      List.Forall₂ (fun p r => BamCramReader.new env p fasta = .ok r) paths m.bam_readers_ ∧
      ∀ r0, m.bam_readers_.head? = some r0 →
        ∀ r ∈ m.bam_readers_, r.bam_header.dictionary = r0.bam_header.dictionary) ∧
    (∀ p q dp dq, p ∈ paths → q ∈ paths →
      sourceDictionary env p fasta = some dp → sourceDictionary env q fasta = some dq →
      dp ≠ dq →
      ∃ log e, BamCramMultiReader.new env paths fasta merge_type = (log, .error e)) := by
  refine ⟨?_, ?_⟩
  · intro log m h
    obtain ⟨_, _, _, _, hall, hcomp⟩ := new_ok _ _ _ _ _ _ h
    exact ⟨hall, fun r0 hr0 r hr => (hcomp r0 hr0 r hr).symm⟩
  · intro p q dp dq hp hq hdp hdq hne
    apply new_not_ok_is_error
    intro log m h
    obtain ⟨_, _, _, _, hall, hcomp⟩ := new_ok _ _ _ _ _ _ h
    obtain ⟨rp, hrp, hop⟩ := forall₂_mem_left hall hp
    obtain ⟨rq, hrq, hoq⟩ := forall₂_mem_left hall hq
    simp only [sourceDictionary, hop, hoq, Except.toOption, Option.map_some',
      Option.some.injEq] at hdp hdq
    cases hh : m.bam_readers_.head? with
    | none =>
      rw [List.head?_eq_none_iff] at hh
      rw [hh] at hrp; cases hrp
    | some r0 =>
      apply hne
      rw [← hdp, ← hdq, ← hcomp r0 hh rp hrp, ← hcomp r0 hh rq hrq]

theorem C3_construction_requires_compatible_dictionaries_witness :
    "A.bam" ∈ ["A.bam", "C.bam"] ∧ "C.bam" ∈ ["A.bam", "C.bam"] ∧
    sourceDictionary exampleEnv "A.bam" "" = some [("chr1", 100)] ∧
    sourceDictionary exampleEnv "C.bam" "" = some [("chr1", 200)] ∧
    [("chr1", 100)] ≠ [("chr1", 200)] ∧
    ∃ log e, BamCramMultiReader.new exampleEnv ["A.bam", "C.bam"] "" 0 = (log, .error e) :=
  ⟨by decide, by decide, by decide, by decide, by decide,
   (C3_construction_requires_compatible_dictionaries exampleEnv ["A.bam", "C.bam"] "" 0).2
     "A.bam" "C.bam" [("chr1", 100)] [("chr1", 200)] (by decide) (by decide) (by decide)
     (by decide) (by decide)⟩

/-- C4. The constructor rejects a bad configuration: with an empty path list, or a merge
type that is neither `ORDER_ALNS_BY_POSITION` (0) nor `ORDER_ALNS_BY_FILE` (1), it ends in
a fatal error before any source is opened and no reader results; a call without the merge
type uses `ORDER_ALNS_BY_POSITION`; and after a construction that completes,
`get_merge_type` returns the merge type that was passed in. -/
theorem C4_construction_rejects_bad_configuration (env : HtsEnv) (paths : List String)
    (fasta : String) (merge_type : Int) :
    BamCramMultiReader.ORDER_ALNS_BY_POSITION = 0 ∧
    BamCramMultiReader.ORDER_ALNS_BY_FILE = 1 ∧
    (paths = [] ∨ (merge_type ≠ 0 ∧ merge_type ≠ 1) →
      ∃ e, BamCramMultiReader.new env paths fasta merge_type = ([], .error e)) ∧
    BamCramMultiReader.newDefaultMerge env paths fasta
      = BamCramMultiReader.new env paths fasta BamCramMultiReader.ORDER_ALNS_BY_POSITION ∧
    (∀ log m, BamCramMultiReader.new env paths fasta merge_type = (log, .ok m) →
      m.get_merge_type = merge_type) := by
  refine ⟨rfl, rfl, ?_, rfl, ?_⟩
  · intro h
    unfold BamCramMultiReader.new
    by_cases hp : paths.isEmpty = true
    · exact ⟨"Must provide at least one file to BamCramMultiReader constructor",
        by rw [if_pos hp]⟩
    · have hne : paths ≠ [] := by
        intro hnil; simp [hnil] at hp
      rcases h with h | h
      · exact absurd h hne
      · have hm : merge_type ≠ BamCramMultiReader.ORDER_ALNS_BY_POSITION
            ∧ merge_type ≠ BamCramMultiReader.ORDER_ALNS_BY_FILE := h
        exact ⟨"Invalid merge type provided to BamCramMultiReader constructor",
          by rw [if_neg hp, if_pos hm]⟩
  · intro log m h
    exact (new_ok _ _ _ _ _ _ h).2.2.1

theorem C4_construction_rejects_bad_configuration_witness :
    (([] : List String) = [] ∨ ((0 : Int) ≠ 0 ∧ (0 : Int) ≠ 1)) ∧
    (∃ e, BamCramMultiReader.new exampleEnv [] "" 0 = ([], .error e)) ∧
    ((["A.bam", "B.bam"] : List String) = [] ∨ ((7 : Int) ≠ 0 ∧ (7 : Int) ≠ 1)) ∧
    (∃ e, BamCramMultiReader.new exampleEnv ["A.bam", "B.bam"] "" 7 = ([], .error e)) :=
  ⟨Or.inl rfl,
   (C4_construction_rejects_bad_configuration exampleEnv [] "" 0).2.2.1 (Or.inl rfl),
   Or.inr (by decide),
   (C4_construction_rejects_bad_configuration exampleEnv ["A.bam", "B.bam"] "" 7).2.2.1
     (Or.inr (by decide))⟩

/-! ### Peak loader -/

/-- C10 (what the code does). For a stored peak file type that is none of `"homer"`,
`"wce"` and `"bed"`, `Load` ends with the exception `std::out_of_range` raised by
`peakfileTypeList.at`: nothing is written to `std::cerr`, no value is returned and no
reader is called.  For the three valid types `Load` calls exactly the matching reader
first and returns `true`. -/
theorem C10_load_dispatch (pl : PeakLoader) (region : String) (noscale scale_outliers : Bool) :
    (pl.peakfileType ≠ "homer" ∧ pl.peakfileType ≠ "wce" ∧ pl.peakfileType ≠ "bed" →
      pl.Load region noscale scale_outliers
        = { calls := [], cerr := [], result := .out_of_range }) ∧
    (pl.peakfileType = "homer" →
      pl.Load region noscale scale_outliers
        = pl.finishLoad region noscale scale_outliers
            [.HomerPeakReader pl.count_colidx region noscale scale_outliers]) ∧
    (pl.peakfileType = "wce" →
      pl.Load region noscale scale_outliers
        = pl.finishLoad region noscale scale_outliers [.EmptyPeakReader]) ∧
    (pl.peakfileType = "bed" →
      pl.Load region noscale scale_outliers
        = pl.finishLoad region noscale scale_outliers
            [.BedPeakReader pl.count_colidx region noscale scale_outliers]) ∧
    (∀ calls, (pl.finishLoad region noscale scale_outliers calls).result = .returned true ∧
      (pl.finishLoad region noscale scale_outliers calls).calls.take calls.length = calls ∧
      (pl.finishLoad region noscale scale_outliers calls).cerr = []) := by
  refine ⟨?_, ?_, ?_, ?_, ?_⟩
  · rintro ⟨h1, h2, h3⟩
    have h1' : ¬ "homer" = pl.peakfileType := fun e => h1 e.symm
    have h2' : ¬ "wce" = pl.peakfileType := fun e => h2 e.symm
    have h3' : ¬ "bed" = pl.peakfileType := fun e => h3 e.symm
    simp [PeakLoader.Load, PeakLoader.peakfileTypeList, mapFind, h1', h2', h3']
  · intro h
    simp [PeakLoader.Load, PeakLoader.peakfileTypeList, mapFind, h]
  · intro h
    simp [PeakLoader.Load, PeakLoader.peakfileTypeList, mapFind, h]
  · intro h
    simp [PeakLoader.Load, PeakLoader.peakfileTypeList, mapFind, h]
  · intro calls
    unfold PeakLoader.finishLoad
    by_cases hb : pl.bamfile ≠ ""
    · simp [hb]
    · simp [hb]

/-- The run of `Load` on a loader whose stored type is `"narrowpeak"`: the exception is
raised, the message of the `default` branch is not written and `false` is not returned. -/
theorem C10_load_dispatch_witness :
    (("narrowpeak" : String) ≠ "homer" ∧ ("narrowpeak" : String) ≠ "wce"
      ∧ ("narrowpeak" : String) ≠ "bed") ∧
    PeakLoader.Load { peakfile := "peaks.txt", peakfileType := "narrowpeak",
                      bamfile := "reads.bam", count_colidx := -1 } "" false false
      = { calls := [], cerr := [], result := .out_of_range } :=
  ⟨by decide,
   (C10_load_dispatch { peakfile := "peaks.txt", peakfileType := "narrowpeak",
                        bamfile := "reads.bam", count_colidx := -1 } "" false false).1
     (by decide)⟩

/-! ### Region queries with an unknown sequence name -/

theorem reader_new_header (env : HtsEnv) (path fasta : String) (r : BamCramReader)
    (h : BamCramReader.new env path fasta = .ok r) :
    ∃ targets, r.bam_header = BamHeader.new targets := by
  unfold BamCramReader.new at h
  split at h
  · cases h
  · split at h
    · cases h
    · split at h
      · cases h
      · split at h
        · cases h
        · split at h
          · cases h
          · split at h
            · cases h
            · split at h
              · cases h
              · simp only [Except.ok.injEq] at h
                exact ⟨_, by rw [← h]; rfl⟩

theorem header_eq_of_dictionary_eq (a b : BamHeader)
    (ha : ∃ t, a = BamHeader.new t) (hb : ∃ t, b = BamHeader.new t)
    (h : a.dictionary = b.dictionary) : a = b := by
  obtain ⟨ta, rfl⟩ := ha
  obtain ⟨tb, rfl⟩ := hb
  rw [new_dictionary, new_dictionary] at h
  rw [h]

/-- After a construction that completes, every reader has the header of the first. -/
theorem new_ok_headers_eq (env : HtsEnv) (paths : List String) (fasta : String)
    (merge_type : Int) (log : List String) (m : BamCramMultiReader)
    (h : BamCramMultiReader.new env paths fasta merge_type = (log, .ok m))
    (h0 : BamHeader) (hh : m.bam_header = some h0) :
    ∀ r ∈ m.bam_readers_, r.bam_header = h0 := by
  obtain ⟨_, _, _, _, hall, hcomp⟩ := new_ok _ _ _ _ _ _ h
  unfold BamCramMultiReader.bam_header at hh
  cases hr0 : m.bam_readers_.head? with
  | none => simp [hr0] at hh
  | some r0 =>
    simp only [hr0, Option.map_some', Option.some.injEq] at hh
    have hbuilt : ∀ r ∈ m.bam_readers_, ∃ t, r.bam_header = BamHeader.new t := by
      intro r hr
      have : ∀ (ps : List String) (rs : List BamCramReader),
          List.Forall₂ (fun p r => BamCramReader.new env p fasta = .ok r) ps rs →
          ∀ x ∈ rs, ∃ t, x.bam_header = BamHeader.new t := by
        intro ps rs hf
        induction hf with
        | nil => intro x hx; cases hx
        | cons hab _ ih =>
          intro x hx
          rcases List.mem_cons.mp hx with rfl | hx
          · exact reader_new_header _ _ _ _ hab
          · exact ih x hx
      exact this _ _ hall r hr
    intro r hr
    have hr0mem : r0 ∈ m.bam_readers_ := List.mem_of_mem_head? hr0
    rw [← hh]
    exact (header_eq_of_dictionary_eq _ _ (hbuilt r0 hr0mem) (hbuilt r hr)
      (hcomp r0 hr0 r hr)).symm

theorem reader_SetRegion_unknown (r : BamCramReader) (chrom : String) (start stop : Int)
    (h : r.bam_header.ref_id chrom = -1) : r.SetRegion chrom start stop = (false, r) := by
  unfold BamCramReader.bam_header at h
  simp [BamCramReader.SetRegion, h]

theorem merge_SetRegion_unknown (m : MergeReader) (chrom : String) (start stop : Int)
    (hne : m.sources ≠ [])
    (h : ∀ e ∈ m.sources, e.reader.bam_header.ref_id chrom = -1) :
    m.SetRegion chrom start stop = (false, m) := by
  obtain ⟨sources, discipline⟩ := m
  simp only at hne h
  unfold MergeReader.SetRegion
  simp only [List.map_map, List.all_map, Prod.mk.injEq, MergeReader.mk.injEq, and_true]
  refine ⟨?_, ?_⟩
  · cases sources with
    | nil => exact absurd rfl hne
    | cons e rest =>
      have he := reader_SetRegion_unknown e.reader chrom start stop (h e (List.mem_cons_self _ _))
      simp [he]
  · have : ∀ e ∈ sources,
        ((fun x : SourceSlot × Bool × BamCramReader => ({ x.1 with reader := x.2.2 } : SourceSlot)) ∘
          (fun e : SourceSlot => (e, e.reader.SetRegion chrom start stop))) e = e := by
      intro e he
      simp [reader_SetRegion_unknown e.reader chrom start stop (h e he)]
    rw [List.map_congr_left this]
    simp

theorem GetNextAlignment_header (r : BamCramReader) :
    r.GetNextAlignment.2.header_ = r.header_ := by
  unfold BamCramReader.GetNextAlignment
  split
  · split <;> rfl
  · split
    · rfl
    · split
      · rfl
      · split <;> rfl
  · rfl

theorem SetRegion_header (r : BamCramReader) (chrom : String) (start stop : Int) :
    (r.SetRegion chrom start stop).2.header_ = r.header_ := by
  unfold BamCramReader.SetRegion
  dsimp only
  split
  · rfl
  · split
    · rfl
    · split <;> rfl

theorem refill_header (e : SourceSlot) : e.refill.reader.header_ = e.reader.header_ := by
  unfold SourceSlot.refill
  split
  · rfl
  · exact GetNextAlignment_header e.reader

theorem clearSlot_headers (l : List SourceSlot) (i : Nat) :
    (clearSlot l i).map (fun e => e.reader.header_) = l.map (fun e => e.reader.header_) := by
  induction l generalizing i with
  | nil => rfl
  | cons x rest ih =>
    cases i with
    | zero => simp [clearSlot]
    | succ i => simp [clearSlot, ih]

theorem pullInFileOrder_headers (l : List SourceSlot) (i : Nat) :
    (pullInFileOrder l i).2.map (fun e => e.reader.header_)
      = l.map (fun e => e.reader.header_) := by
  induction l generalizing i with
  | nil => rfl
  | cons x rest ih =>
    unfold pullInFileOrder
    have hx := GetNextAlignment_header x.reader
    cases hg : x.reader.GetNextAlignment with
    | mk res r' =>
      rw [hg] at hx
      cases res with
      | some a => simpa using hx
      | none =>
        have := ih (i + 1)
        cases hp : pullInFileOrder rest (i + 1) with
        | mk res' rest' =>
          rw [hp] at this
          simpa using ⟨hx, this⟩

theorem merge_GetNextAlignment_headers (m : MergeReader) :
    m.GetNextAlignment.2.sources.map (fun e => e.reader.header_)
      = m.sources.map (fun e => e.reader.header_) := by
  have hrefill : (m.sources.map SourceSlot.refill).map (fun e => e.reader.header_)
      = m.sources.map (fun e => e.reader.header_) := by
    rw [List.map_map]
    apply List.map_congr_left
    intro e _
    exact refill_header e
  unfold MergeReader.GetNextAlignment
  split
  · dsimp only
    split
    · exact hrefill
    · dsimp only
      rw [clearSlot_headers, hrefill]
  · have := pullInFileOrder_headers m.sources 0
    cases hp : pullInFileOrder m.sources 0 with
    | mk res sources' =>
      rw [hp] at this
      exact this

theorem merge_SetRegion_headers (m : MergeReader) (chrom : String) (start stop : Int) :
    (m.SetRegion chrom start stop).2.sources.map (fun e => e.reader.header_)
      = m.sources.map (fun e => e.reader.header_) := by
  unfold MergeReader.SetRegion
  simp only [List.map_map]
  apply List.map_congr_left
  intro e _
  exact SetRegion_header e.reader chrom start stop

theorem run_headers (ops : List MergeOp) (m : MergeReader) :
    (MergeReader.run ops m).sources.map (fun e => e.reader.header_)
      = m.sources.map (fun e => e.reader.header_) := by
  induction ops generalizing m with
  | nil => rfl
  | cons op rest ih =>
    cases op with
    | SetRegion chrom start stop =>
      simp only [MergeReader.run]
      rw [ih, merge_SetRegion_headers]
    | GetNextAlignment =>
      simp only [MergeReader.run]
      rw [ih, merge_GetNextAlignment_headers]

/-- C5. `SetRegion` with an unknown sequence name is a failure without side effect.  For a
single reader whose header gives `ref_id name = -1` the call returns `false` and the reader
(iterator state, remembered chromosome and start, cached first alignment, offset) is as
before.  For a merge reader with at least one source, on each of which the name is
unknown, the call returns `false` and every source and every lookahead slot is as before;
this covers every reader that the constructor builds, where the name only has to be
unknown to the header of the first source, both right after the construction and after
any sequence of `SetRegion` and `GetNextAlignment` calls. -/
theorem C5_setregion_unknown_name (chrom : String) (start stop : Int) :
    (∀ r : BamCramReader, r.bam_header.ref_id chrom = -1 →
      r.SetRegion chrom start stop = (false, r)) ∧
    (∀ m : MergeReader, m.sources ≠ [] →
      (∀ e ∈ m.sources, e.reader.bam_header.ref_id chrom = -1) →
      m.SetRegion chrom start stop = (false, m)) ∧
    (∀ env paths fasta merge_type log (mr : BamCramMultiReader) (h0 : BamHeader),
      BamCramMultiReader.new env paths fasta merge_type = (log, .ok mr) →
      mr.bam_header = some h0 → h0.ref_id chrom = -1 →
      mr.toMergeReader.SetRegion chrom start stop = (false, mr.toMergeReader)) ∧
    (∀ env paths fasta merge_type log (mr : BamCramMultiReader) (h0 : BamHeader)
        (ops : List MergeOp),
      BamCramMultiReader.new env paths fasta merge_type = (log, .ok mr) →
      mr.bam_header = some h0 → h0.ref_id chrom = -1 →
      (MergeReader.run ops mr.toMergeReader).SetRegion chrom start stop
        = (false, MergeReader.run ops mr.toMergeReader)) := by
  have hbuilt : ∀ env paths fasta merge_type log (mr : BamCramMultiReader) (h0 : BamHeader),
      BamCramMultiReader.new env paths fasta merge_type = (log, .ok mr) →
      mr.bam_header = some h0 →
      mr.toMergeReader.sources ≠ [] ∧
      ∀ h ∈ mr.toMergeReader.sources.map (fun e => e.reader.header_), h = h0 := by
    intro env paths fasta merge_type log mr h0 hnew hh
    have hheaders := new_ok_headers_eq _ _ _ _ _ _ hnew h0 hh
    refine ⟨?_, ?_⟩
    · have hne : mr.bam_readers_ ≠ [] := by
        intro hnil
        simp [BamCramMultiReader.bam_header, hnil] at hh
      simpa [BamCramMultiReader.toMergeReader] using hne
    · intro h hmem
      simp only [BamCramMultiReader.toMergeReader, List.map_map, List.mem_map,
        Function.comp] at hmem
      obtain ⟨r, hr, rfl⟩ := hmem
      exact hheaders r hr
  refine ⟨fun r h => reader_SetRegion_unknown r chrom start stop h,
    fun m hne h => merge_SetRegion_unknown m chrom start stop hne h, ?_, ?_⟩
  · intro env paths fasta merge_type log mr h0 hnew hh hid
    obtain ⟨hne, hall⟩ := hbuilt env paths fasta merge_type log mr h0 hnew hh
    apply merge_SetRegion_unknown _ _ _ _ hne
    intro e he
    have : e.reader.header_ = h0 := hall _ (List.mem_map.mpr ⟨e, he, rfl⟩)
    unfold BamCramReader.bam_header
    rw [this]; exact hid
  · intro env paths fasta merge_type log mr h0 ops hnew hh hid
    obtain ⟨hne, hall⟩ := hbuilt env paths fasta merge_type log mr h0 hnew hh
    have hrun := run_headers ops mr.toMergeReader
    apply merge_SetRegion_unknown
    · intro hnil
      rw [hnil] at hrun
      exact hne (List.map_eq_nil_iff.mp hrun.symm)
    · intro e he
      have hmem : e.reader.header_ ∈
          (MergeReader.run ops mr.toMergeReader).sources.map (fun e => e.reader.header_) :=
        List.mem_map.mpr ⟨e, he, rfl⟩
      rw [hrun] at hmem
      unfold BamCramReader.bam_header
      rw [hall _ hmem]; exact hid

/-- The unknown name `chrX` on readers that are in the middle of a pass: a single reader
with an active region and a cached first alignment, and a merge reader with active
regions, one filled lookahead slot and one consumed cache.  The failed call leaves all of
it as it was, where a call that reset the region state would not. -/
theorem C5_setregion_unknown_name_witness :
    (exampleActiveReader.state_
        = .RegionActive { seq_id := 0, start := 0, stop := 100 } ∧
      exampleActiveReader.chrom_ = "chr1" ∧ exampleActiveReader.start_ = 0 ∧
      exampleActiveReader.offset_ = 1 ∧ exampleActiveReader.min_offset_ = 1 ∧
      exampleActiveReader.first_aln_ = some (exampleRecord "A.bam" 0 5)) ∧
    (exampleActiveReader.bam_header.ref_id "chrX" = -1 ∧
      exampleActiveReader.SetRegion "chrX" 100 200 = (false, exampleActiveReader) ∧
      (exampleActiveReader.SetRegion "chrX" 100 200).2.state_
        = .RegionActive { seq_id := 0, start := 0, stop := 100 } ∧
      (exampleActiveReader.SetRegion "chrX" 100 200).2.first_aln_
        = some (exampleRecord "A.bam" 0 5)) ∧
    (exampleStreamingMerge.sources.map
        (fun e => (e.lookahead, e.reader.state_, e.reader.chrom_, e.reader.start_,
          e.reader.offset_, e.reader.first_aln_))
      = [(none, .RegionActive { seq_id := 0, start := 0, stop := 100 }, "chr1", 0, 1, none),
         (some (exampleRecord "B.bam" 0 5),
          .RegionActive { seq_id := 0, start := 0, stop := 100 }, "chr1", 0, 1, none)]) ∧
    (exampleStreamingMerge.sources ≠ [] ∧
      (∀ e ∈ exampleStreamingMerge.sources, e.reader.bam_header.ref_id "chrX" = -1) ∧
      exampleStreamingMerge.SetRegion "chrX" 100 200 = (false, exampleStreamingMerge) ∧
      (exampleStreamingMerge.SetRegion "chrX" 100 200).2.sources.map
          (fun e => (e.lookahead, e.reader.state_, e.reader.chrom_, e.reader.start_,
            e.reader.offset_, e.reader.first_aln_))
        = [(none, .RegionActive { seq_id := 0, start := 0, stop := 100 }, "chr1", 0, 1, none),
           (some (exampleRecord "B.bam" 0 5),
            .RegionActive { seq_id := 0, start := 0, stop := 100 }, "chr1", 0, 1, none)]) ∧
    (BamCramMultiReader.new exampleEnv ["A.bam", "B.bam"] "" 0
        = (["A.bam", "B.bam"], .ok (exampleMultiReader 0)) ∧
      (exampleMultiReader 0).bam_header = some (BamHeader.new [("chr1", 100)]) ∧
      (BamHeader.new [("chr1", 100)]).ref_id "chrX" = -1 ∧
      (exampleMultiReader 0).toMergeReader.SetRegion "chrX" 100 200
        = (false, (exampleMultiReader 0).toMergeReader) ∧
      (MergeReader.run [.SetRegion "chr1" 0 100, .GetNextAlignment]
          (exampleMultiReader 0).toMergeReader).SetRegion "chrX" 100 200
        = (false, MergeReader.run [.SetRegion "chr1" 0 100, .GetNextAlignment]
            (exampleMultiReader 0).toMergeReader)) :=
  ⟨by decide,
   ⟨by decide, (C5_setregion_unknown_name "chrX" 100 200).1 exampleActiveReader (by decide),
    by decide, by decide⟩,
   rfl,
   ⟨fun h => absurd (congrArg List.length h) (by decide), by decide,
    (C5_setregion_unknown_name "chrX" 100 200).2.1 exampleStreamingMerge
      (fun h => absurd (congrArg List.length h) (by decide)) (by decide),
    rfl⟩,
   ⟨rfl, rfl, by decide,
    (C5_setregion_unknown_name "chrX" 100 200).2.2.1 exampleEnv ["A.bam", "B.bam"] "" 0
      ["A.bam", "B.bam"] (exampleMultiReader 0) (BamHeader.new [("chr1", 100)]) rfl rfl
      (by decide),
    (C5_setregion_unknown_name "chrX" 100 200).2.2.2 exampleEnv ["A.bam", "B.bam"] "" 0
      ["A.bam", "B.bam"] (exampleMultiReader 0) (BamHeader.new [("chr1", 100)])
      [.SetRegion "chr1" 0 100, .GetNextAlignment] rfl rfl (by decide)⟩⟩

/-! ### The stream of a single reader -/

theorem GetNextAlignment_some_pending (r r' : BamCramReader) (a : BamAlignment)
    (h : r.GetNextAlignment = (some a, r')) : r'.pending + 1 = r.pending := by
  unfold BamCramReader.GetNextAlignment at h
  split at h
  · split at h
    · cases h
    · rename_i b hb
      simp only [Prod.mk.injEq, Option.some.injEq] at h
      obtain ⟨_, rfl⟩ := h
      obtain ⟨hlt, _⟩ := List.getElem?_eq_some_iff.mp hb
      simp only [BamCramReader.pending]
      omega
  · split at h
    · rename_i b hb
      simp only [Prod.mk.injEq, Option.some.injEq] at h
      obtain ⟨_, rfl⟩ := h
      simp [BamCramReader.pending, hb]
    · rename_i hnone
      split at h
      · cases h
      · rename_i b hb
        split at h
        · cases h
        · simp only [Prod.mk.injEq, Option.some.injEq] at h
          obtain ⟨_, rfl⟩ := h
          obtain ⟨hlt, _⟩ := List.getElem?_eq_some_iff.mp hb
          simp only [BamCramReader.pending]
          omega
  · cases h

theorem GetNextAlignment_none_absorbing (r r' : BamCramReader)
    (h : r.GetNextAlignment = (none, r')) : r'.GetNextAlignment = (none, r') := by
  unfold BamCramReader.GetNextAlignment at h
  split at h
  · rename_i hst
    split at h
    · rename_i hrec
      simp only [Prod.mk.injEq, true_and] at h
      subst h
      simp [BamCramReader.GetNextAlignment, hst, hrec]
    · cases h
  · split at h
    · cases h
    · split at h
      · simp only [Prod.mk.injEq, true_and] at h
        subst h
        simp [BamCramReader.GetNextAlignment]
      · split at h
        · simp only [Prod.mk.injEq, true_and] at h
          subst h
          simp [BamCramReader.GetNextAlignment]
        · cases h
  · rename_i hst
    simp only [Prod.mk.injEq, true_and] at h
    subst h
    simp [BamCramReader.GetNextAlignment, hst]

theorem drain_of_none (r r' : BamCramReader) (h : r.GetNextAlignment = (none, r')) (n : Nat) :
    BamCramReader.drain n r = [] := by
  cases n with
  | zero => rfl
  | succ n => simp [BamCramReader.drain, h]

theorem stream_of_some (r r' : BamCramReader) (a : BamAlignment)
    (h : r.GetNextAlignment = (some a, r')) : r.stream = a :: r'.stream := by
  unfold BamCramReader.stream
  rw [← GetNextAlignment_some_pending r r' a h]
  simp [BamCramReader.drain, h]

theorem stream_of_none (r r' : BamCramReader) (h : r.GetNextAlignment = (none, r')) :
    r.stream = [] ∧ r'.stream = [] :=
  ⟨drain_of_none r r' h _, drain_of_none r' r' (GetNextAlignment_none_absorbing r r' h) _⟩

/-- The records returned by `n` calls are the first `n` records of the stream. -/
theorem drain_eq_take_stream (n : Nat) (r : BamCramReader) :
    BamCramReader.drain n r = r.stream.take n := by
  induction n generalizing r with
  | zero => simp [BamCramReader.drain]
  | succ n ih =>
    cases hg : r.GetNextAlignment with
    | mk res r' =>
      cases res with
      | none => rw [drain_of_none r r' hg, (stream_of_none r r' hg).1]; rfl
      | some a =>
        rw [stream_of_some r r' a hg]
        simp [BamCramReader.drain, hg, ih]

/-! ### FILE_ORDER discipline -/

theorem pullInFileOrder_none (sources sources' : List SourceSlot) (i : Nat)
    (h : pullInFileOrder sources i = (none, sources')) : fileOrderFrom i sources = [] := by
  induction sources generalizing i sources' with
  | nil => rfl
  | cons e rest ih =>
    unfold pullInFileOrder at h
    cases hg : e.reader.GetNextAlignment with
    | mk res r' =>
      cases res with
      | some a => rw [hg] at h; simp at h
      | none =>
        rw [hg] at h
        cases hp : pullInFileOrder rest (i + 1) with
        | mk res' rest' =>
          rw [hp] at h
          simp only [Prod.mk.injEq] at h
          obtain ⟨rfl, _⟩ := h
          have := ih _ _ hp
          simp only [fileOrderFrom] at this ⊢
          simp [(stream_of_none _ _ hg).1, this]

theorem pullInFileOrder_some (sources sources' : List SourceSlot) (i : Nat)
    (x : Nat × BamAlignment) (h : pullInFileOrder sources i = (some x, sources')) :
    fileOrderFrom i sources = x :: fileOrderFrom i sources' := by
  induction sources generalizing i sources' with
  | nil => simp [pullInFileOrder] at h
  | cons e rest ih =>
    unfold pullInFileOrder at h
    cases hg : e.reader.GetNextAlignment with
    | mk res r' =>
      cases res with
      | some a =>
        rw [hg] at h
        simp only [Prod.mk.injEq, Option.some.injEq] at h
        obtain ⟨rfl, rfl⟩ := h
        simp [fileOrderFrom, stream_of_some _ _ _ hg]
      | none =>
        rw [hg] at h
        cases hp : pullInFileOrder rest (i + 1) with
        | mk res' rest' =>
          rw [hp] at h
          simp only [Prod.mk.injEq] at h
          obtain ⟨rfl, rfl⟩ := h
          have := ih _ _ hp
          simp only [fileOrderFrom] at this ⊢
          simp [(stream_of_none _ _ hg).1, (stream_of_none _ _ hg).2, this]

theorem drain_file_order (n : Nat) (m : MergeReader)
    (hd : m.discipline ≠ BamCramMultiReader.ORDER_ALNS_BY_POSITION) :
    m.drain n = (fileOrderFrom 0 m.sources).take n := by
  induction n generalizing m with
  | zero => simp [MergeReader.drain]
  | succ n ih =>
    unfold MergeReader.drain MergeReader.GetNextAlignment
    simp only [hd, if_false]
    cases hp : pullInFileOrder m.sources 0 with
    | mk res sources' =>
      cases res with
      | none => simp [pullInFileOrder_none _ _ _ hp]
      | some x =>
        simp only [pullInFileOrder_some _ _ _ _ hp, List.take_succ_cons]
        rw [ih { m with sources := sources' } hd]

theorem fileOrderFrom_index_ge (i : Nat) (sources : List SourceSlot) :
    ∀ x ∈ fileOrderFrom i sources, i ≤ x.1 := by
  induction sources generalizing i with
  | nil => intro x hx; simp [fileOrderFrom] at hx
  | cons e rest ih =>
    intro x hx
    simp only [fileOrderFrom, List.enumFrom_cons, List.map_cons, List.flatten_cons,
      List.mem_append, List.mem_map] at hx
    rcases hx with ⟨a, _, rfl⟩ | hx
    · exact le_refl _
    · exact Nat.le_of_succ_le (ih (i + 1) x hx)

theorem fileOrderFrom_pairwise (i : Nat) (sources : List SourceSlot) :
    (fileOrderFrom i sources).Pairwise (fun x y => x.1 ≤ y.1) := by
  induction sources generalizing i with
  | nil => simp [fileOrderFrom]
  | cons e rest ih =>
    have hsplit : fileOrderFrom i (e :: rest)
        = e.reader.stream.map (fun a => (i, a)) ++ fileOrderFrom (i + 1) rest := by
      simp [fileOrderFrom]
    rw [hsplit, List.pairwise_append]
    refine ⟨?_, ih (i + 1), ?_⟩
    · rw [List.pairwise_map]
      exact List.pairwise_of_forall (fun _ _ => le_refl i)
    · intro x hx y hy
      simp only [List.mem_map] at hx
      obtain ⟨a, _, rfl⟩ := hx
      exact Nat.le_of_succ_le (fileOrderFrom_index_ge (i + 1) rest y hy)

/-- C2. Under `ORDER_ALNS_BY_FILE` the sources are drained strictly in construction order:
the results of `n` successive calls are the first `n` entries of the list that holds all
records of source 0, then all records of source 1, and so on (so with enough calls every
record of every source is returned), and in what is returned no record of a source comes
before a record of a source with a lower index. -/
theorem C2_file_order_drains_sources_in_order (m : MergeReader)
    (hd : m.discipline = BamCramMultiReader.ORDER_ALNS_BY_FILE) :
    (∀ n, m.drain n = (fileOrderFrom 0 m.sources).take n) ∧
    (∀ n, (fileOrderFrom 0 m.sources).length ≤ n → m.drain n = fileOrderFrom 0 m.sources) ∧
    (∀ n, (m.drain n).Pairwise (fun x y => x.1 ≤ y.1)) := by
  have hne : m.discipline ≠ BamCramMultiReader.ORDER_ALNS_BY_POSITION := by
    rw [hd]; decide
  refine ⟨fun n => drain_file_order n m hne, ?_, ?_⟩
  · intro n hn
    rw [drain_file_order n m hne, List.take_of_length_le hn]
  · intro n
    rw [drain_file_order n m hne]
    exact (fileOrderFrom_pairwise 0 m.sources).sublist (List.take_sublist _ _)

theorem C2_file_order_drains_sources_in_order_witness :
    (exampleMergeReader 1).discipline = BamCramMultiReader.ORDER_ALNS_BY_FILE ∧
    (exampleMergeReader 1).drain 5
      = [(0, exampleRecord "A.bam" 0 5), (0, exampleRecord "A.bam" 0 10),
         (1, exampleRecord "B.bam" 0 5), (1, exampleRecord "B.bam" 0 20)] ∧
    (fileOrderFrom 0 (exampleMergeReader 1).sources).length ≤ 5 ∧
    (exampleMergeReader 1).drain 5 = fileOrderFrom 0 (exampleMergeReader 1).sources :=
  ⟨rfl, by decide, by decide,
   (C2_file_order_drains_sources_in_order (exampleMergeReader 1) rfl).2.1 5 (by decide)⟩

/-! ### POSITION discipline -/

theorem keyLe_of_not_keyLt {a b : BamAlignment} (h : ¬ keyLt b a) : keyLe a b := by
  simp only [keyLt, keyLe, BamAlignment.RefID, BamAlignment.Position] at *
  omega

theorem keyLe_of_keyLt {a b : BamAlignment} (h : keyLt a b) : keyLe a b := by
  simp only [keyLt, keyLe, BamAlignment.RefID, BamAlignment.Position] at *
  omega

theorem not_keyEq_of_keyLt {a b : BamAlignment} (h : keyLt a b) : ¬ keyEq a b := by
  simp only [keyLt, keyEq, BamAlignment.RefID, BamAlignment.Position] at *
  omega

theorem keyLe_trans {a b c : BamAlignment} (h1 : keyLe a b) (h2 : keyLe b c) : keyLe a c := by
  simp only [keyLe, BamAlignment.RefID, BamAlignment.Position] at *
  omega

theorem refill_refill (e : SourceSlot) : e.refill.refill = e.refill := by
  obtain ⟨r, la⟩ := e
  cases la with
  | some a => simp [SourceSlot.refill]
  | none =>
    cases hg : r.GetNextAlignment with
    | mk res r' =>
      cases res with
      | some a => simp [SourceSlot.refill, hg]
      | none =>
        simp [SourceSlot.refill, hg, GetNextAlignment_none_absorbing r r' hg]

theorem refill_contents (e : SourceSlot) :
    e.refill.lookahead.toList ++ e.refill.reader.stream
      = e.lookahead.toList ++ e.reader.stream := by
  obtain ⟨r, la⟩ := e
  cases la with
  | some a => simp [SourceSlot.refill]
  | none =>
    cases hg : r.GetNextAlignment with
    | mk res r' =>
      cases res with
      | some a => simp [SourceSlot.refill, hg, stream_of_some r r' a hg]
      | none =>
        simp [SourceSlot.refill, hg, (stream_of_none r r' hg).1, (stream_of_none r r' hg).2]

theorem refill_sorted (e : SourceSlot) (h : e.Sorted) : e.refill.Sorted := by
  unfold SourceSlot.Sorted at *
  rw [refill_contents]; exact h

theorem refill_after_clear (e : SourceSlot) (b : BamAlignment)
    (h : ({ e with lookahead := none } : SourceSlot).refill.lookahead = some b) :
    ∃ tl, e.reader.stream = b :: tl := by
  obtain ⟨r, la⟩ := e
  cases hg : r.GetNextAlignment with
  | mk res r' =>
    simp only [SourceSlot.refill, hg] at h
    subst h
    exact ⟨r'.stream, stream_of_some r r' b hg⟩

theorem selectMin_none (l : List SourceSlot) (k : Nat) (h : selectMin l k = none) :
    ∀ e ∈ l, e.lookahead = none := by
  induction l generalizing k with
  | nil => intro e he; cases he
  | cons e rest ih =>
    unfold selectMin at h
    cases hla : e.lookahead with
    | none =>
      rw [hla] at h
      intro e' he'
      rcases List.mem_cons.mp he' with rfl | he'
      · exact hla
      · exact ih (k + 1) h e' he'
    | some a =>
      rw [hla] at h
      cases hs : selectMin rest (k + 1) with
      | none => rw [hs] at h; simp at h
      | some p =>
        rw [hs] at h
        obtain ⟨j, b⟩ := p
        by_cases hlt : keyLt b a <;> simp [hlt] at h

theorem selectMin_some (l : List SourceSlot) (k i : Nat) (a : BamAlignment)
    (h : selectMin l k = some (i, a)) :
    ∃ j e, i = k + j ∧ l[j]? = some e ∧ e.lookahead = some a ∧
      ∀ j' e' b, l[j']? = some e' → e'.lookahead = some b →
        (j' < j → keyLt a b) ∧ ¬ keyLt b a := by
  induction l generalizing k i a with
  | nil => simp [selectMin] at h
  | cons e rest ih =>
    unfold selectMin at h
    cases hla : e.lookahead with
    | none =>
      rw [hla] at h
      obtain ⟨j, e0, hi, hj, he0, hmin⟩ := ih (k + 1) i a h
      refine ⟨j + 1, e0, by omega, by simpa using hj, he0, ?_⟩
      intro j' e' b hj' hb
      cases j' with
      | zero =>
        simp only [List.getElem?_cons_zero, Option.some.injEq] at hj'
        subst hj'; rw [hla] at hb; cases hb
      | succ j' =>
        simp only [List.getElem?_cons_succ] at hj'
        obtain ⟨h1, h2⟩ := hmin j' e' b hj' hb
        exact ⟨fun hlt => h1 (by omega), h2⟩
    | some a0 =>
      rw [hla] at h
      cases hs : selectMin rest (k + 1) with
      | none =>
        rw [hs] at h
        simp only [Option.some.injEq, Prod.mk.injEq] at h
        obtain ⟨rfl, rfl⟩ := h
        refine ⟨0, e, rfl, by simp, hla, ?_⟩
        intro j' e' b hj' hb
        cases j' with
        | zero =>
          simp only [List.getElem?_cons_zero, Option.some.injEq] at hj'
          subst hj'; rw [hla] at hb
          simp only [Option.some.injEq] at hb; subst hb
          refine ⟨fun hlt => absurd hlt (by omega), ?_⟩
          simp only [keyLt, BamAlignment.RefID, BamAlignment.Position]; omega
        | succ j' =>
          simp only [List.getElem?_cons_succ] at hj'
          have := selectMin_none rest (k + 1) hs e' (List.getElem?_mem hj')
          rw [this] at hb; cases hb
      | some p =>
        rw [hs] at h
        obtain ⟨j1, b1⟩ := p
        obtain ⟨j, e0, hi, hj, he0, hmin⟩ := ih (k + 1) j1 b1 hs
        by_cases hlt : keyLt b1 a0
        · simp only [hlt, if_true, Option.some.injEq, Prod.mk.injEq] at h
          obtain ⟨rfl, rfl⟩ := h
          refine ⟨j + 1, e0, by omega, by simpa using hj, he0, ?_⟩
          intro j' e' b hj' hb
          cases j' with
          | zero =>
            simp only [List.getElem?_cons_zero, Option.some.injEq] at hj'
            subst hj'; rw [hla] at hb
            simp only [Option.some.injEq] at hb; subst hb
            refine ⟨fun _ => hlt, ?_⟩
            simp only [keyLt, BamAlignment.RefID, BamAlignment.Position] at hlt ⊢; omega
          | succ j' =>
            simp only [List.getElem?_cons_succ] at hj'
            obtain ⟨h1, h2⟩ := hmin j' e' b hj' hb
            exact ⟨fun hlt' => h1 (by omega), h2⟩
        · simp only [hlt, if_false, Option.some.injEq, Prod.mk.injEq] at h
          obtain ⟨rfl, rfl⟩ := h
          refine ⟨0, e, rfl, by simp, hla, ?_⟩
          intro j' e' b hj' hb
          cases j' with
          | zero =>
            simp only [List.getElem?_cons_zero, Option.some.injEq] at hj'
            subst hj'; rw [hla] at hb
            simp only [Option.some.injEq] at hb; subst hb
            refine ⟨fun hlt' => absurd hlt' (by omega), ?_⟩
            simp only [keyLt, BamAlignment.RefID, BamAlignment.Position]; omega
          | succ j' =>
            simp only [List.getElem?_cons_succ] at hj'
            obtain ⟨_, h2⟩ := hmin j' e' b hj' hb
            refine ⟨fun hlt' => absurd hlt' (by omega), ?_⟩
            simp only [keyLt, BamAlignment.RefID, BamAlignment.Position] at hlt h2 ⊢; omega

theorem getElem?_clearSlot_self (l : List SourceSlot) (i : Nat) (e : SourceSlot)
    (h : l[i]? = some e) : (clearSlot l i)[i]? = some { e with lookahead := none } := by
  induction l generalizing i with
  | nil => simp at h
  | cons x rest ih =>
    cases i with
    | zero =>
      simp only [List.getElem?_cons_zero, Option.some.injEq] at h
      subst h; simp [clearSlot]
    | succ i =>
      simp only [List.getElem?_cons_succ] at h
      simpa [clearSlot] using ih i h

theorem getElem?_clearSlot_ne (l : List SourceSlot) (i j : Nat) (h : j ≠ i) :
    (clearSlot l i)[j]? = l[j]? := by
  induction l generalizing i j with
  | nil => simp [clearSlot]
  | cons x rest ih =>
    cases i with
    | zero =>
      cases j with
      | zero => exact absurd rfl h
      | succ j => simp [clearSlot]
    | succ i =>
      cases j with
      | zero => simp [clearSlot]
      | succ j =>
        simp only [clearSlot, List.getElem?_cons_succ]
        exact ih i j (by omega)

theorem mem_clearSlot (l : List SourceSlot) (i : Nat) (e : SourceSlot)
    (h : e ∈ clearSlot l i) :
    ∃ e0 ∈ l, e = e0 ∨ e = { e0 with lookahead := none } := by
  induction l generalizing i with
  | nil => simp [clearSlot] at h
  | cons x rest ih =>
    cases i with
    | zero =>
      simp only [clearSlot, List.mem_cons] at h
      rcases h with rfl | h
      · exact ⟨x, List.mem_cons_self _ _, Or.inr rfl⟩
      · exact ⟨e, List.mem_cons_of_mem _ h, Or.inl rfl⟩
    | succ i =>
      simp only [clearSlot, List.mem_cons] at h
      rcases h with rfl | h
      · exact ⟨e, List.mem_cons_self _ _, Or.inl rfl⟩
      · obtain ⟨e0, he0, hor⟩ := ih i h
        exact ⟨e0, List.mem_cons_of_mem _ he0, hor⟩

theorem cleared_sorted (e : SourceSlot) (h : e.Sorted) :
    ({ e with lookahead := none } : SourceSlot).Sorted := by
  unfold SourceSlot.Sorted at *
  exact h.sublist (List.sublist_append_right _ _)

/-- What one call under the POSITION discipline does, in terms of the refilled slots. -/
theorem position_step (m m' : MergeReader) (x : Nat × BamAlignment)
    (hd : m.discipline = BamCramMultiReader.ORDER_ALNS_BY_POSITION)
    (h : m.GetNextAlignment = (some x, m')) :
    selectMin (m.sources.map SourceSlot.refill) 0 = some x ∧
    m' = { m with sources := clearSlot (m.sources.map SourceSlot.refill) x.1 } := by
  unfold MergeReader.GetNextAlignment at h
  rw [if_pos hd] at h
  dsimp only at h
  cases hs : selectMin (m.sources.map SourceSlot.refill) 0 with
  | none => rw [hs] at h; simp at h
  | some p =>
    rw [hs] at h
    obtain ⟨i, a⟩ := p
    simp only [Prod.mk.injEq, Option.some.injEq] at h
    obtain ⟨rfl, rfl⟩ := h
    exact ⟨rfl, rfl⟩

theorem position_step_sorted (m m' : MergeReader) (x : Nat × BamAlignment)
    (hd : m.discipline = BamCramMultiReader.ORDER_ALNS_BY_POSITION)
    (hs : ∀ e ∈ m.sources, e.Sorted)
    (h : m.GetNextAlignment = (some x, m')) :
    m'.discipline = BamCramMultiReader.ORDER_ALNS_BY_POSITION ∧ ∀ e ∈ m'.sources, e.Sorted := by
  obtain ⟨_, rfl⟩ := position_step m m' x hd h
  refine ⟨hd, ?_⟩
  intro e he
  obtain ⟨e0, he0, hor⟩ := mem_clearSlot _ _ _ he
  obtain ⟨e1, he1, rfl⟩ := List.mem_map.mp he0
  have hsorted := refill_sorted e1 (hs e1 he1)
  rcases hor with rfl | rfl
  · exact hsorted
  · exact cleared_sorted _ hsorted

/-- Two successive results under the POSITION discipline are in merge order. -/
theorem position_step_order (m m' m'' : MergeReader) (x y : Nat × BamAlignment)
    (hd : m.discipline = BamCramMultiReader.ORDER_ALNS_BY_POSITION)
    (hs : ∀ e ∈ m.sources, e.Sorted)
    (h1 : m.GetNextAlignment = (some x, m'))
    (h2 : m'.GetNextAlignment = (some y, m'')) : mergeOrder x y := by
  obtain ⟨hsel1, rfl⟩ := position_step m m' x hd h1
  have hd' : ({ m with sources := clearSlot (m.sources.map SourceSlot.refill) x.1 } :
      MergeReader).discipline = BamCramMultiReader.ORDER_ALNS_BY_POSITION := hd
  obtain ⟨hsel2, _⟩ := position_step _ m'' y hd' h2
  obtain ⟨i, a⟩ := x
  obtain ⟨j, b⟩ := y
  dsimp only at hsel2
  obtain ⟨i', e, hi, hei, hea, hmin⟩ := selectMin_some _ _ _ _ hsel1
  obtain ⟨j', e', hj, hej, heb, _⟩ := selectMin_some _ _ _ _ hsel2
  simp only [Nat.zero_add] at hi hj
  subst hi hj
  rw [List.getElem?_map] at hej
  by_cases hji : j = i
  · subst hji
    rw [getElem?_clearSlot_self _ _ _ hei] at hej
    simp only [Option.map_some', Option.some.injEq] at hej
    subst hej
    obtain ⟨tl, htl⟩ := refill_after_clear e b heb
    have hsorted : e.Sorted := by
      obtain ⟨e1, he1, rfl⟩ := List.mem_map.mp (List.getElem?_mem hei)
      exact refill_sorted e1 (hs e1 he1)
    unfold SourceSlot.Sorted at hsorted
    rw [hea, htl] at hsorted
    simp only [Option.toList_some, List.singleton_append, List.pairwise_cons,
      List.mem_cons] at hsorted
    exact ⟨hsorted.1 b (Or.inl rfl), fun _ => le_refl _⟩
  · rw [getElem?_clearSlot_ne _ _ _ hji] at hej
    cases hfj : (m.sources.map SourceSlot.refill)[j]? with
    | none => rw [hfj] at hej; simp at hej
    | some e0 =>
      rw [hfj] at hej
      simp only [Option.map_some', Option.some.injEq] at hej
      have hfix : e0.refill = e0 := by
        obtain ⟨e1, _, rfl⟩ := List.mem_map.mp (List.getElem?_mem hfj)
        exact refill_refill e1
      rw [hfix] at hej
      subst hej
      obtain ⟨hlt, hnlt⟩ := hmin j e0 b hfj heb
      refine ⟨keyLe_of_not_keyLt hnlt, ?_⟩
      intro heq
      show i ≤ j
      by_contra hcon
      exact not_keyEq_of_keyLt (hlt (by omega)) heq

theorem drain_position_chain (n : Nat) (m : MergeReader)
    (hd : m.discipline = BamCramMultiReader.ORDER_ALNS_BY_POSITION)
    (hs : ∀ e ∈ m.sources, e.Sorted) : (m.drain n).Chain' mergeOrder := by
  induction n generalizing m with
  | zero => simp [MergeReader.drain]
  | succ n ih =>
    unfold MergeReader.drain
    cases h1 : m.GetNextAlignment with
    | mk res m' =>
      cases res with
      | none => simp
      | some x =>
        obtain ⟨hd', hs'⟩ := position_step_sorted m m' x hd hs h1
        simp only
        rw [List.chain'_cons']
        refine ⟨?_, ih m' hd' hs'⟩
        intro y hy
        cases n with
        | zero => simp [MergeReader.drain] at hy
        | succ k =>
          unfold MergeReader.drain at hy
          cases h2 : m'.GetNextAlignment with
          | mk res' m'' =>
            cases res' with
            | none => rw [h2] at hy; simp at hy
            | some y' =>
              rw [h2] at hy
              simp only [List.head?_cons, Option.mem_def, Option.some.injEq] at hy
              subst hy
              exact position_step_order m m' m'' x y' hd hs h1 h2

theorem mergeOrder_keys_pairwise (l : List (Nat × BamAlignment))
    (h : l.Chain' mergeOrder) : (l.map Prod.snd).Pairwise keyLe := by
  have hc : l.Chain' (fun x y => keyLe x.2 y.2) := h.imp (fun _ _ hxy => hxy.1)
  haveI : IsTrans (Nat × BamAlignment) (fun x y => keyLe x.2 y.2) :=
    ⟨fun _ _ _ h1 h2 => keyLe_trans h1 h2⟩
  rw [List.pairwise_map]
  exact List.chain'_iff_pairwise.mp hc

theorem contents_refill (l : List SourceSlot) :
    ((l.map SourceSlot.refill).map (fun e => e.lookahead.toList ++ e.reader.stream))
      = l.map (fun e => e.lookahead.toList ++ e.reader.stream) := by
  rw [List.map_map]
  apply List.map_congr_left
  intro e _
  exact refill_contents e

theorem contents_clearSlot (l : List SourceSlot) (i : Nat) (e : SourceSlot) (a : BamAlignment)
    (hi : l[i]? = some e) (ha : e.lookahead = some a) :
    (l.map (fun e => e.lookahead.toList ++ e.reader.stream)).flatten.Perm
      (a :: ((clearSlot l i).map (fun e => e.lookahead.toList ++ e.reader.stream)).flatten) := by
  induction l generalizing i with
  | nil => simp at hi
  | cons x rest ih =>
    cases i with
    | zero =>
      simp only [List.getElem?_cons_zero, Option.some.injEq] at hi
      subst hi
      simp [clearSlot, ha]
    | succ i =>
      simp only [List.getElem?_cons_succ] at hi
      simp only [clearSlot, List.map_cons, List.flatten_cons]
      exact ((ih i hi).append_left _).trans List.perm_middle

theorem position_step_contents (m m' : MergeReader) (x : Nat × BamAlignment)
    (hd : m.discipline = BamCramMultiReader.ORDER_ALNS_BY_POSITION)
    (h : m.GetNextAlignment = (some x, m')) :
    m.contents.Perm (x.2 :: m'.contents) := by
  obtain ⟨hsel, rfl⟩ := position_step m m' x hd h
  obtain ⟨i, a⟩ := x
  obtain ⟨j, e, hj, hej, hea, _⟩ := selectMin_some _ _ _ _ hsel
  simp only [Nat.zero_add] at hj
  subst hj
  have := contents_clearSlot _ _ _ _ hej hea
  rw [contents_refill] at this
  exact this

theorem position_end_contents (m m' : MergeReader)
    (hd : m.discipline = BamCramMultiReader.ORDER_ALNS_BY_POSITION)
    (h : m.GetNextAlignment = (none, m')) : m.contents = [] := by
  unfold MergeReader.GetNextAlignment at h
  rw [if_pos hd] at h
  dsimp only at h
  cases hs : selectMin (m.sources.map SourceSlot.refill) 0 with
  | some p => rw [hs] at h; simp at h
  | none =>
    have hnone := selectMin_none _ _ hs
    unfold MergeReader.contents
    rw [← contents_refill]
    simp only [List.flatten_eq_nil_iff, List.mem_map, forall_exists_index, and_imp,
      forall_apply_eq_imp_iff₂]
    intro e he
    have hla : e.refill.lookahead = none := hnone _ (List.mem_map.mpr ⟨e, he, rfl⟩)
    obtain ⟨r, la⟩ := e
    cases la with
    | some a => simp [SourceSlot.refill] at hla
    | none =>
      cases hg : r.GetNextAlignment with
      | mk res r' =>
        simp only [SourceSlot.refill, hg] at hla ⊢
        subst hla
        simp [(stream_of_none r r' hg).2]

theorem drain_position_perm (n : Nat) (m : MergeReader)
    (hd : m.discipline = BamCramMultiReader.ORDER_ALNS_BY_POSITION)
    (hn : m.contents.length ≤ n) : ((m.drain n).map Prod.snd).Perm m.contents := by
  induction n generalizing m with
  | zero =>
    have : m.contents = [] := List.eq_nil_of_length_eq_zero (by omega)
    simp [MergeReader.drain, this]
  | succ n ih =>
    unfold MergeReader.drain
    cases h1 : m.GetNextAlignment with
    | mk res m' =>
      cases res with
      | none => simp [position_end_contents m m' hd h1]
      | some x =>
        have hperm := position_step_contents m m' x hd h1
        have hd' : m'.discipline = BamCramMultiReader.ORDER_ALNS_BY_POSITION := by
          rw [(position_step m m' x hd h1).2]; exact hd
        have hlen : m'.contents.length ≤ n := by
          have := hperm.length_eq
          simp only [List.length_cons] at this
          omega
        simp only [List.map_cons]
        exact ((ih m' hd' hlen).cons x.2).trans hperm.symm

/-- C1. Under `ORDER_ALNS_BY_POSITION`, when every source returns its records in
non-decreasing `(reference id, start position)` order (a record already buffered in its
lookahead slot counted first), the results of repeated calls are non-decreasing in that
key, two successive results with equal key come in ascending source index, and with
enough calls every record of every source is returned exactly once. -/
theorem C1_position_merge_is_ordered (m : MergeReader)
    (hd : m.discipline = BamCramMultiReader.ORDER_ALNS_BY_POSITION)
    (hs : ∀ e ∈ m.sources, (e.lookahead.toList ++ e.reader.stream).Pairwise keyLe) (n : Nat) :
    ((m.drain n).map Prod.snd).Pairwise keyLe ∧
    (m.drain n).Chain' (fun x y => keyLe x.2 y.2 ∧ (keyEq x.2 y.2 → x.1 ≤ y.1)) ∧
    (m.contents.length ≤ n → ((m.drain n).map Prod.snd).Perm m.contents) := by
  have hchain := drain_position_chain n m hd hs
  exact ⟨mergeOrder_keys_pairwise _ hchain, hchain, drain_position_perm n m hd⟩

/-- The scenario of the two sources A = [(0,5), (0,10)] and B = [(0,5), (0,20)]: the
merge returns A@5, B@5, A@10, B@20. -/
theorem C1_position_merge_is_ordered_witness :
    BamCramMultiReader.new exampleEnv ["A.bam", "B.bam"] "" 0
      = (["A.bam", "B.bam"], .ok (exampleMultiReader 0)) ∧
    (exampleMultiReader 0).toMergeReader = exampleMergeReader 0 ∧
    (exampleMergeReader 0).discipline = BamCramMultiReader.ORDER_ALNS_BY_POSITION ∧
    (∀ e ∈ (exampleMergeReader 0).sources,
      (e.lookahead.toList ++ e.reader.stream).Pairwise keyLe) ∧
    (exampleMergeReader 0).drain 5
      = [(0, exampleRecord "A.bam" 0 5), (1, exampleRecord "B.bam" 0 5),
         (0, exampleRecord "A.bam" 0 10), (1, exampleRecord "B.bam" 0 20)] ∧
    (((exampleMergeReader 0).drain 5).map Prod.snd).Pairwise keyLe ∧
    ((exampleMergeReader 0).drain 5).Chain'
      (fun x y => keyLe x.2 y.2 ∧ (keyEq x.2 y.2 → x.1 ≤ y.1)) :=
  ⟨rfl, rfl, rfl, by decide, by decide,
   (C1_position_merge_is_ordered (exampleMergeReader 0) rfl (by decide) 5).1,
   (C1_position_merge_is_ordered (exampleMergeReader 0) rfl (by decide) 5).2.1⟩

/-! ### Construction of the peak loader -/

theorem toLower_toLower (c : Char) : c.toLower.toLower = c.toLower := by
  by_cases h : c.toNat ≥ 65 ∧ c.toNat ≤ 90
  · have hc : c = Char.ofNat c.toNat := (Char.ofNat_toNat c).symm
    obtain ⟨h1, h2⟩ := h
    generalize c.toNat = n at hc h1 h2
    subst hc
    interval_cases n <;> decide
  · have h1 : c.toLower = c := by
      unfold Char.toLower
      simp only [h, if_false]
    rw [h1, h1]

theorem lowercase_lowercase (t : String) : lowercase (lowercase t) = lowercase t := by
  unfold lowercase
  simp only [List.map_map]
  congr 1
  apply List.map_congr_left
  intro c _
  exact toLower_toLower c

theorem lowercase_eq_empty (t : String) : lowercase t = "" ↔ t = "" := by
  unfold lowercase
  constructor
  · intro h
    have hd : (t.data.map Char.toLower) = [] := congrArg String.data h
    have : t.data = [] := List.map_eq_nil_iff.mp hd
    exact String.ext this
  · intro h; subst h; rfl

/-- C11 (what the code does). The constructor compares the type with `"wce"` before it
unifies the type to lower case, so the spelling decides in one case: with `t = "WCE"`, an
empty `bamfile` and `count_colidx = -1` the construction ends with the error about `-c`
and `-b`, while with `lowercase t = "wce"` it succeeds.  In every other case, that is
unless `bamfile` is empty, `count_colidx` is `-1`, `t` is not `"wce"` and `lowercase t` is
`"wce"`, the two constructions end alike: both with the same error, or both with the state
that keeps the other three arguments and stores `lowercase t`. -/
theorem C11_constructor_case_handling :
    (PeakLoader.new "peaks.txt" "WCE" "" (-1)
        = .error "****** ERROR: Need to specify either parameter -c or parameter -b ******" ∧
     PeakLoader.new "peaks.txt" (lowercase "WCE") "" (-1)
        = .ok { peakfile := "peaks.txt", peakfileType := "wce", bamfile := "",
                count_colidx := -1 }) ∧
    (∀ (peakfile t bamfile : String) (count_colidx : Int),
      ¬ (bamfile = "" ∧ count_colidx = -1 ∧ t ≠ "wce" ∧ lowercase t = "wce") →
      (∃ e, PeakLoader.new peakfile t bamfile count_colidx = .error e ∧
            PeakLoader.new peakfile (lowercase t) bamfile count_colidx = .error e) ∨
      (PeakLoader.new peakfile t bamfile count_colidx
          = .ok { peakfile := peakfile, peakfileType := lowercase t, bamfile := bamfile,
                  count_colidx := count_colidx } ∧
       PeakLoader.new peakfile (lowercase t) bamfile count_colidx
          = .ok { peakfile := peakfile, peakfileType := lowercase t, bamfile := bamfile,
                  count_colidx := count_colidx })) := by
  refine ⟨⟨rfl, rfl⟩, ?_⟩
  intro peakfile t bamfile count_colidx hcase
  have hwce : lowercase "wce" = "wce" := rfl
  unfold PeakLoader.new
  by_cases ht : t = ""
  · left
    refine ⟨"****** ERROR: Need to specify the type of the peak file ******", ?_, ?_⟩
    · rw [if_pos ht]
    · rw [if_pos ((lowercase_eq_empty t).mpr ht)]
  · have hlt : ¬ lowercase t = "" := fun h => ht ((lowercase_eq_empty t).mp h)
    rw [if_neg ht, if_neg hlt]
    by_cases hb : bamfile = "" ∧ count_colidx = -1
    · by_cases htw : t = "wce"
      · right
        have h1 : ¬ (bamfile = "" ∧ count_colidx = -1 ∧ t ≠ "wce") := fun h => h.2.2 htw
        have h2 : ¬ (bamfile = "" ∧ count_colidx = -1 ∧ lowercase t ≠ "wce") := by
          intro h; apply h.2.2; rw [htw]; exact hwce
        rw [if_neg h1, if_neg h2, lowercase_lowercase]
        exact ⟨rfl, rfl⟩
      · have hltw : lowercase t ≠ "wce" := fun h => hcase ⟨hb.1, hb.2, htw, h⟩
        left
        refine ⟨"****** ERROR: Need to specify either parameter -c or parameter -b ******",
          ?_, ?_⟩
        · rw [if_pos ⟨hb.1, hb.2, htw⟩]
        · rw [if_pos ⟨hb.1, hb.2, hltw⟩]
    · right
      have h1 : ¬ (bamfile = "" ∧ count_colidx = -1 ∧ t ≠ "wce") := fun h => hb ⟨h.1, h.2.1⟩
      have h2 : ¬ (bamfile = "" ∧ count_colidx = -1 ∧ lowercase t ≠ "wce") :=
        fun h => hb ⟨h.1, h.2.1⟩
      rw [if_neg h1, if_neg h2, lowercase_lowercase]
      exact ⟨rfl, rfl⟩

theorem C11_constructor_case_handling_witness :
    ¬ (("reads.bam" : String) = "" ∧ (-1 : Int) = -1 ∧ ("BED" : String) ≠ "wce"
        ∧ lowercase "BED" = "wce") ∧
    ((∃ e, PeakLoader.new "peaks.txt" "BED" "reads.bam" (-1) = .error e ∧
           PeakLoader.new "peaks.txt" (lowercase "BED") "reads.bam" (-1) = .error e) ∨
     (PeakLoader.new "peaks.txt" "BED" "reads.bam" (-1)
        = .ok { peakfile := "peaks.txt", peakfileType := lowercase "BED",
                bamfile := "reads.bam", count_colidx := -1 } ∧
      PeakLoader.new "peaks.txt" (lowercase "BED") "reads.bam" (-1)
        = .ok { peakfile := "peaks.txt", peakfileType := lowercase "BED",
                bamfile := "reads.bam", count_colidx := -1 })) :=
  ⟨by decide,
   C11_constructor_case_handling.2 "peaks.txt" "BED" "reads.bam" (-1) (by decide)⟩

end ChIPmunk
